import Mathlib

/-!
Verification of the ZFace CAM path-dressup core, shallowly embedded from
the Python sources ZFace/QuadTree.py, ZFace/ZFaceSection.py and
ZFace/ZFace.py.  Machine floats are modelled by rationals, except where the
source takes square roots (feed interpolation), where reals are used.
External FreeCAD primitives (geometric sections, edge construction, the
tolerance of the host comparison helper) are abstracted as parameters.
-/

namespace ZFace

/-- A stored sample (x, y, z): the (x, y, z) tuples of QuadTree.py and the
coordinates of FreeCAD vectors, with rational coordinates. -/
structure Pt where
  x : ℚ
  y : ℚ
  z : ℚ
deriving DecidableEq, Repr

/-- QuadTree.Node from QuadTree.py: a bounding box, a capacity, a point
bucket, and either no children or exactly the four children NW, NE, SW, SE
(the source stores them in that order in a list). -/
inductive Node where
  | leaf (xmin xmax ymin ymax : ℚ) (capacity : ℕ) (points : List Pt)
  | node (xmin xmax ymin ymax : ℚ) (capacity : ℕ) (points : List Pt)
      (nw ne sw se : Node)
deriving DecidableEq, Repr

def Node.xmin : Node → ℚ
  | .leaf v _ _ _ _ _ => v
  | .node v _ _ _ _ _ _ _ _ _ => v

def Node.xmax : Node → ℚ
  | .leaf _ v _ _ _ _ => v
  | .node _ v _ _ _ _ _ _ _ _ => v

def Node.ymin : Node → ℚ
  | .leaf _ _ v _ _ _ => v
  | .node _ _ v _ _ _ _ _ _ _ => v

def Node.ymax : Node → ℚ
  | .leaf _ _ _ v _ _ => v
  | .node _ _ _ v _ _ _ _ _ _ => v

/-- Node.contains of QuadTree.py, line 24: xmin <= x <= xmax and
ymin <= y <= ymax. -/
def Node.contains (n : Node) (x y : ℚ) : Bool :=
  decide (n.xmin ≤ x ∧ x ≤ n.xmax) && decide (n.ymin ≤ y ∧ y ≤ n.ymax)

/-- The minimal possible squared distance from the query point to the
bounding box of a node, computed exactly as in Node.nearest,
QuadTree.py lines 77-88. -/
def Node.minDistSq (n : Node) (x y : ℚ) : ℚ :=
  let dx : ℚ := if x < n.xmin then n.xmin - x else if x > n.xmax then x - n.xmax else 0
  let dy : ℚ := if y < n.ymin then n.ymin - y else if y > n.ymax then y - n.ymax else 0
  dx * dx + dy * dy

/-- The child ordering key of Node.nearest, QuadTree.py line 109:
(max(xmin - x, 0, x - xmax))^2 + (max(ymin - y, 0, y - ymax))^2. -/
def Node.childKey (n : Node) (x y : ℚ) : ℚ :=
  max (n.xmin - x) (max 0 (x - n.xmax)) ^ 2 + max (n.ymin - y) (max 0 (y - n.ymax)) ^ 2

/-- The squared planar distance of a stored sample to the query point, in
the exact form computed at QuadTree.py lines 96-98. -/
def dSq (x y : ℚ) (p : Pt) : ℚ :=
  (p.x - x) * (p.x - x) + (p.y - y) * (p.y - y)

/-- One step of the point scan of Node.nearest (QuadTree.py lines 95-100):
replace the best candidate when the new squared distance is strictly
smaller (or when there is no candidate yet). -/
def scanBest (x y : ℚ) (best : Option (ℚ × Pt)) (p : Pt) : Option (ℚ × Pt) :=
  match best with
  | none => some (dSq x y p, p)
  | some (bd, bp) => if dSq x y p < bd then some (dSq x y p, p) else some (bd, bp)

/-- The scan over the points stored directly in a node,
QuadTree.py lines 95-100. -/
def scanPoints (x y : ℚ) (pts : List Pt) (best : Option (ℚ × Pt)) : Option (ℚ × Pt) :=
  pts.foldl (scanBest x y) best

/-- The pruning test of Node.nearest, QuadTree.py line 90:
best is not None and min_dist_sq >= best[0]. -/
def pruneCheck (n : Node) (x y : ℚ) (best : Option (ℚ × Pt)) : Bool :=
  match best with
  | some (bd, _) => decide (bd ≤ n.minDistSq x y)
  | none => false

/-- Node.nearest of QuadTree.py lines 72-113.  The best candidate is the
pair (best squared distance, best point); the source carries the same data
as (best_dist_sq, (bx, by, bz)).  Children are visited in order of
increasing childKey; the source sorts the four child nodes with the stable
Python sorted, modelled here by a stable insertion sort of the four
child indices paired with their keys (the visiting order is the same). -/
def Node.nearest (x y : ℚ) : Node → Option (ℚ × Pt) → Option (ℚ × Pt)
  | n@(.leaf _ _ _ _ _ pts), best =>
    if pruneCheck n x y best then best
    else scanPoints x y pts best
  | n@(.node _ _ _ _ _ pts nw ne sw se), best =>
    if pruneCheck n x y best then best
    else
      -- scan own points, then visit the children sorted by childKey
      (List.insertionSort (fun a b => a.2 ≤ b.2)
        [((0 : ℕ), nw.childKey x y), (1, ne.childKey x y),
         (2, sw.childKey x y), (3, se.childKey x y)]).foldl
        (fun b i =>
          match i.1 with
          | 0 => Node.nearest x y nw b
          | 1 => Node.nearest x y ne b
          | 2 => Node.nearest x y sw b
          | _ => Node.nearest x y se b)
        (scanPoints x y pts best)

/-- The child-insertion loop of Node.insert (QuadTree.py lines 62-65 and
52-55), with the single-node insertion passed as a function: try the
children in order NW, NE, SW, SE, stopping at the first that accepts the
point. -/
def insertInto4 (ins : Node → Pt → Option (Node × Bool)) (nw ne sw se : Node) (p : Pt) :
    Option (Node × Node × Node × Node × Bool) :=
  match ins nw p with
  | none => none
  | some (nw', true) => some (nw', ne, sw, se, true)
  | some (nw', false) =>
    match ins ne p with
    | none => none
    | some (ne', true) => some (nw', ne', sw, se, true)
    | some (ne', false) =>
      match ins sw p with
      | none => none
      | some (sw', true) => some (nw', ne', sw', se, true)
      | some (sw', false) =>
        match ins se p with
        | none => none
        | some (se', b) => some (nw', ne', sw', se', b)

/-- The redistribution loop of Node.insert after subdivision
(QuadTree.py lines 47-58): move the stored points into the new children;
a point accepted by no child stays in the parent bucket. -/
def redistribute (ins : Node → Pt → Option (Node × Bool)) :
    Node → Node → Node → Node → List Pt → List Pt →
    Option (Node × Node × Node × Node × List Pt)
  | nw, ne, sw, se, kept, [] => some (nw, ne, sw, se, kept)
  | nw, ne, sw, se, kept, q :: qs =>
    match insertInto4 ins nw ne sw se q with
    | none => none
    | some (nw', ne', sw', se', inserted) =>
      redistribute ins nw' ne' sw' se' (if inserted then kept else kept ++ [q]) qs

/-- The shared tail of Node.insert (QuadTree.py lines 61-68): insert the
point into the first child that accepts it, or keep it in this node's own
bucket when no child matched (numerical boundary fallback), returning
True either way. -/
def childrenInsert (ins : Node → Pt → Option (Node × Bool))
    (xmin xmax ymin ymax : ℚ) (cap : ℕ) (pts : List Pt)
    (nw ne sw se : Node) (p : Pt) : Option (Node × Bool) :=
  match insertInto4 ins nw ne sw se p with
  | none => none
  | some (d1, d2, d3, d4, b) =>
    if b then some (.node xmin xmax ymin ymax cap pts d1 d2 d3 d4, true)
    else some (.node xmin xmax ymin ymax cap (pts ++ [p]) d1 d2 d3 d4, true)

/-- The at-capacity path of Node.insert (QuadTree.py lines 45-59 followed
by the fallthrough of lines 61-68): subdivide into four empty children at
the box midpoints, redistribute the stored points, then insert the new
point into the children. -/
def overflowInsert (ins : Node → Pt → Option (Node × Bool))
    (xmin xmax ymin ymax : ℚ) (cap : ℕ) (pts : List Pt) (p : Pt) :
    Option (Node × Bool) :=
  -- mx = (xmin + xmax) / 2 and my = (ymin + ymax) / 2 are the box midpoints
  match redistribute ins
      (.leaf xmin ((xmin + xmax) / 2) ((ymin + ymax) / 2) ymax cap [])
      (.leaf ((xmin + xmax) / 2) xmax ((ymin + ymax) / 2) ymax cap [])
      (.leaf xmin ((xmin + xmax) / 2) ymin ((ymin + ymax) / 2) cap [])
      (.leaf ((xmin + xmax) / 2) xmax ymin ((ymin + ymax) / 2) cap []) [] pts with
  | none => none
  | some (c1, c2, c3, c4, kept) =>
    childrenInsert ins xmin xmax ymin ymax cap kept c1 c2 c3 c4 p

/-- One unfolding of Node.insert (QuadTree.py lines 37-70), with the
recursive child insertions abstracted as the function argument. -/
def insertBody (ins : Node → Pt → Option (Node × Bool)) (n : Node) (p : Pt) :
    Option (Node × Bool) :=
  if n.contains p.x p.y = false then some (n, false)
  else
    match n with
    | .leaf xmin xmax ymin ymax cap pts =>
      if pts.length < cap then
        some (.leaf xmin xmax ymin ymax cap (pts ++ [p]), true)
      else
        overflowInsert ins xmin xmax ymin ymax cap pts p
    | .node xmin xmax ymin ymax cap pts nw ne sw se =>
      childrenInsert ins xmin xmax ymin ymax cap pts nw ne sw se p

/-- Node.insert of QuadTree.py lines 37-70, with explicit recursion fuel
(the source recursion is unbounded for pathological inputs such as more
than capacity points sharing one XY position; fuel exhaustion returns
none).  Returns the updated node together with the boolean result of the
source function. -/
def Node.insert : ℕ → Node → Pt → Option (Node × Bool)
  | 0, _, _ => none
  | fuel + 1, n, p => insertBody (fun m q => Node.insert fuel m q) n p

/-- All samples stored in the subtree of a node. -/
def Node.allPoints : Node → List Pt
  | .leaf _ _ _ _ _ pts => pts
  | .node _ _ _ _ _ pts nw ne sw se =>
      pts ++ (nw.allPoints ++ (ne.allPoints ++ (sw.allPoints ++ se.allPoints)))

/-- Well-formedness of a quadtree node: every sample stored in the subtree
of a node lies inside that node's bounding box (the invariant maintained by
Node.insert and required for the bounding-box pruning of Node.nearest). -/
def Node.Wf : Node → Prop
  | .leaf xmin xmax ymin ymax cap pts =>
      ∀ p ∈ (Node.leaf xmin xmax ymin ymax cap pts).allPoints,
        (Node.leaf xmin xmax ymin ymax cap pts).contains p.x p.y = true
  | .node xmin xmax ymin ymax cap pts nw ne sw se =>
      (∀ p ∈ (Node.node xmin xmax ymin ymax cap pts nw ne sw se).allPoints,
        (Node.node xmin xmax ymin ymax cap pts nw ne sw se).contains p.x p.y = true) ∧
      nw.Wf ∧ ne.Wf ∧ sw.Wf ∧ se.Wf

/-- The QuadTree wrapper of QuadTree.py lines 115-131. -/
structure QuadTree where
  root : Node
deriving DecidableEq, Repr

/-- The QuadTree constructor (lines 115-121): degenerate bounds are
expanded by one unit. -/
def QuadTree.make (xmin xmax ymin ymax : ℚ) (capacity : ℕ) : QuadTree :=
  let xmax := if xmax ≤ xmin then xmin + 1 else xmax
  let ymax := if ymax ≤ ymin then ymin + 1 else ymax
  ⟨Node.leaf xmin xmax ymin ymax capacity []⟩

/-- QuadTree.insert (lines 123-124), with fuel as in Node.insert. -/
def QuadTree.insert (fuel : ℕ) (q : QuadTree) (p : Pt) : Option (QuadTree × Bool) :=
  match Node.insert fuel q.root p with
  | none => none
  | some (n, b) => some (⟨n⟩, b)

/-- QuadTree.nearest (lines 126-131).  The source returns
(px, py, pz, sqrt d2); the square root of the best squared distance is kept
squared here (sqrt is monotone, so minimality statements transfer), and the
returned pair is (best point, best squared distance). -/
def QuadTree.nearest (q : QuadTree) (x y : ℚ) : Option (Pt × ℚ) :=
  match Node.nearest x y q.root none with
  | none => none
  | some (d2, p) => some (p, d2)

/-- A sequence of QuadTree.insert calls, returning the final tree and the
sublist of points the source insert accepted (returned True for). -/
def QuadTree.insertList (fuel : ℕ) : QuadTree → List Pt → Option (QuadTree × List Pt)
  | q, [] => some (q, [])
  | q, p :: ps =>
    match QuadTree.insert fuel q p with
    | none => none
    | some (q', b) =>
      match QuadTree.insertList fuel q' ps with
      | none => none
      | some (q'', acc) => some (q'', if b then p :: acc else acc)

/-- Specification predicate for a best-candidate accumulator of
Node.nearest: the accumulator is none exactly when there are no candidates,
and otherwise holds a candidate together with its squared distance, minimal
among all candidates. -/
def IsBestOf (x y : ℚ) (cand : List Pt) : Option (ℚ × Pt) → Prop
  | none => cand = []
  | some (d2, p) => p ∈ cand ∧ d2 = dSq x y p ∧ ∀ q ∈ cand, d2 ≤ dSq x y q

/-- Specification of a single Node.insert call: returning false leaves the
node unchanged, returning true means the point was inside the node box and
the stored multiset of samples grew by exactly that point, and
well-formedness is preserved. -/
def InsOk (n : Node) (p : Pt) : Option (Node × Bool) → Prop
  | none => True
  | some (n', b) =>
    (b = false → n' = n) ∧
    (b = true → n.contains p.x p.y = true ∧
      (n'.allPoints : Multiset Pt) = p ::ₘ (n.allPoints : Multiset Pt)) ∧
    (n.Wf → n'.Wf)

/-- Specification of the insertInto4 child loop, mirroring InsOk across the
four children. -/
def I4Ok (nw ne sw se : Node) (p : Pt) :
    Option (Node × Node × Node × Node × Bool) → Prop
  | none => True
  | some (nw', ne', sw', se', b) =>
    (b = false → nw' = nw ∧ ne' = ne ∧ sw' = sw ∧ se' = se) ∧
    (b = true →
      ((nw'.allPoints : Multiset Pt) + ↑ne'.allPoints + ↑sw'.allPoints + ↑se'.allPoints)
        = p ::ₘ ((nw.allPoints : Multiset Pt) + ↑ne.allPoints + ↑sw.allPoints + ↑se.allPoints)) ∧
    (nw.Wf → nw'.Wf) ∧ (ne.Wf → ne'.Wf) ∧ (sw.Wf → sw'.Wf) ∧ (se.Wf → se'.Wf)

/-- Specification of the redistribution loop: the samples stored in the
four children plus the kept bucket are preserved as a multiset, and
well-formedness of the children is preserved. -/
def RedisOk (nw ne sw se : Node) (kept qs : List Pt) :
    Option (Node × Node × Node × Node × List Pt) → Prop
  | none => True
  | some (nw', ne', sw', se', kept') =>
    ((nw'.allPoints : Multiset Pt) + ↑ne'.allPoints + ↑sw'.allPoints + ↑se'.allPoints + ↑kept')
      = ((nw.allPoints : Multiset Pt) + ↑ne.allPoints + ↑sw.allPoints + ↑se.allPoints + ↑kept + ↑qs) ∧
    (nw.Wf → nw'.Wf) ∧ (ne.Wf → ne'.Wf) ∧ (sw.Wf → sw'.Wf) ∧ (se.Wf → se'.Wf)

/-- The box test of Node.contains as a function of the box alone
(Node.contains n x y is definitionally boxContains n.xmin n.xmax n.ymin
n.ymax x y for either constructor). -/
def boxContains (xmin xmax ymin ymax x y : ℚ) : Bool :=
  decide (xmin ≤ x ∧ x ≤ xmax) && decide (ymin ≤ y ∧ y ≤ ymax)

/-- Specification of the childrenInsert tail: it always succeeds with True,
adds exactly the new point to the stored multiset, and produces a
well-formed node provided the children were well-formed and every stored
sample lies in the box. -/
def CIOk (xmin xmax ymin ymax : ℚ) (pts : List Pt) (nw ne sw se : Node) (p : Pt) :
    Option (Node × Bool) → Prop
  | none => True
  | some (n', b) =>
    b = true ∧
    (n'.allPoints : Multiset Pt)
      = p ::ₘ ((pts : Multiset Pt) + ↑nw.allPoints + ↑ne.allPoints + ↑sw.allPoints + ↑se.allPoints) ∧
    (nw.Wf → ne.Wf → sw.Wf → se.Wf →
      (∀ q ∈ n'.allPoints, boxContains xmin xmax ymin ymax q.x q.y = true) → n'.Wf)

/-! ZFaceSection.py: the surface-height intersection query. -/

/-- The outcome of the external geometric section primitive
(cyl.section followed by tessellate in ZFaceSection.py), abstracted to the
data the source inspects: the validity and null flags, whether any
bounding-box coordinate exceeds the 1e6 sanity magnitude (lines 79-82),
the total edge length, and the optional ZMax of the bounding box. -/
structure SectionRes where
  isValid : Bool
  isNull : Bool
  boundExtreme : Bool
  length : ℚ
  zmax : Option ℚ
deriving DecidableEq, Repr

/-- is_valid_section of ZFaceSection.py lines 64-83: reject invalid or
null sections and sections with extreme bounding boxes.  The radius
argument is unused, as in the source. -/
def is_valid_section (s : SectionRes) (radius : ℚ) : Bool :=
  s.isValid && !s.isNull && !s.boundExtreme

/-- is_full_length of ZFaceSection.py lines 86-96: the section length must
reach 98 percent of the tool circumference, with pi written 3.14159. -/
def is_full_length (s : SectionRes) (radius : ℚ) : Bool :=
  !(decide (s.length < 2 * (314159 / 100000) * radius * (98 / 100)))

/-- try_intersect_z of ZFaceSection.py lines 109-208, in the compound
branch (use_compound = True).  The cylinder construction and the external
section call are abstracted: sectionOp is the outcome of
cyl.section + tessellate for this attempt, as an Except whose error models
a raised exception of the primitive.  The source body contains no
exception handler, so an error propagates (the per-face branch,
use_compound = False, likewise contains none). -/
def try_intersect_z {ε : Type} (sectionOp : Except ε SectionRes) (radius : ℚ)
    (rule_out_short_length : Bool) : Except ε (Bool × Option ℚ) := do
  let s ← sectionOp
  let zmax := s.zmax
  if !is_valid_section s radius then return (false, none)
  if rule_out_short_length && !is_full_length s radius then return (false, zmax)
  if zmax = none then return (false, none)
  return (true, zmax)

/-- The keyword-argument record of one fallback attempt of intersect_z
(ZFaceSection.py lines 228-242), with the try_intersect_z defaults filled
in for absent keys. -/
structure RunParams where
  radius : ℚ
  tool_height : ℚ
  rotate_z : Option ℚ
  use_approximation : Bool
  use_compound : Bool
  use_poly_cylinder : Bool
  rule_out_short_length : Bool
deriving DecidableEq, Repr

/-- The eight fallback attempts of intersect_z, ZFaceSection.py
lines 228-242, in source order. -/
def runs (tool_radius tool_height : ℚ) : List RunParams :=
  [ -- try safe things
    ⟨tool_radius, tool_height, none, false, true, false, true⟩,
    ⟨tool_radius, tool_height, some 180, false, true, false, true⟩,
    ⟨tool_radius, tool_height, some 45, false, true, false, true⟩,
    -- use approximation
    ⟨tool_radius, tool_height, none, true, true, false, false⟩,
    ⟨tool_radius, tool_height, some 180, true, true, false, false⟩,
    -- use hacks
    ⟨tool_radius, tool_height, none, false, false, false, false⟩,
    ⟨tool_radius, tool_height, none, false, true, true, false⟩,
    ⟨tool_radius, tool_height, none, false, false, true, false⟩ ]

/-- The retry loop of intersect_z (ZFaceSection.py lines 244-261) over the
outcomes of the attempts: non-null Z bounds of all attempts (successful or
not) accumulate in zmaxs; on the first validated success the maximum
accumulated bound is returned; when every attempt has failed the function
returns none (line 275) regardless of the accumulated bounds.  maximum?
models the Python max, which the source only evaluates with a nonempty
list because a successful attempt carries a non-null bound. -/
def intersect_z_runs (att : RunParams → Bool × Option ℚ) :
    List RunParams → List ℚ → Option ℚ
  | [], _ => none
  | r :: rs, zmaxs =>
    match att r with
    | (success, z) =>
      let zmaxs' := match z with
        | some zv => zmaxs ++ [zv]
        | none => zmaxs
      if success then zmaxs'.maximum? else intersect_z_runs att rs zmaxs'

/-- intersect_z of ZFaceSection.py lines 211-275 at the attempt-outcome
level: tool_height is fixed at 1000 (line 224) and the eight runs are
attempted in order, starting with an empty bound accumulator. -/
def intersect_z (tool_radius : ℚ) (att : RunParams → Bool × Option ℚ) : Option ℚ :=
  intersect_z_runs att (runs tool_radius 1000) []

/-- The retry loop of intersect_z in the exception monad: the attempt
itself (try_intersect_z, hence the section primitive) may raise, and the
loop body contains no handler, so the error propagates. -/
def intersect_z_runsE {ε : Type} (att : RunParams → Except ε (Bool × Option ℚ)) :
    List RunParams → List ℚ → Except ε (Option ℚ)
  | [], _ => Except.ok none
  | r :: rs, zmaxs => do
    let (success, z) ← att r
    let zmaxs' := match z with
      | some zv => zmaxs ++ [zv]
      | none => zmaxs
    if success then Except.ok zmaxs'.maximum? else intersect_z_runsE att rs zmaxs'

/-- intersect_z in the exception monad. -/
def intersect_zE {ε : Type} (tool_radius : ℚ)
    (att : RunParams → Except ε (Bool × Option ℚ)) : Except ε (Option ℚ) :=
  intersect_z_runsE att (runs tool_radius 1000) []

/-- get_surface_z of ZFace.py lines 477-518: check the quadtree cache
first; on a hit within the CacheGrid tolerance return the cached height,
otherwise call intersect_z.  nearestRes is the quadtree nearest result as
(point, squared distance): the source compares sqrt d2 <= tol, which for a
nonnegative tolerance equals d2 <= tol * tol (for a negative tolerance
both are false, hence the conjunct).  The cache-insertion step
(lines 505-516, whose own exceptions the source catches) does not affect
the returned value and is not modelled.  No handler guards the intersect_z
call: an exception of the section primitive propagates. -/
def get_surface_z {ε : Type} (tol : ℚ) (nearestRes : Option (Pt × ℚ))
    (att : RunParams → Except ε (Bool × Option ℚ)) (tool_radius : ℚ) :
    Except ε (Option ℚ) :=
  match nearestRes with
  | some (p, d2) =>
    if 0 ≤ tol ∧ d2 ≤ tol * tol then Except.ok (some p.z)
    else intersect_zE tool_radius att
  | none => intersect_zE tool_radius att

/-! ZFace.py: path discretization, classification, and the surface
projection stage of opExecute. -/

/-- SegmentKind of ZFace.py lines 179-182. -/
inductive SegmentKind where
  | IS_ON_PLANE
  | IS_HIGH
  | OTHER
deriving DecidableEq, Repr

/-- Path.Command of the host, modelled by its name and the optional
X/Y/Z/F parameters the core reads (cmd.x is the X parameter or None). -/
structure Command where
  name : String
  x : Option ℚ
  y : Option ℚ
  z : Option ℚ
  f : Option ℚ
deriving DecidableEq, Repr

/-- TaggedSegment of ZFace.py lines 184-188. -/
structure TaggedSegment where
  kind : SegmentKind
  command : Command
  pointlist : List Pt
deriving DecidableEq, Repr

/-- isRoughly of the host Path.Geom module (external): the two values are
equal within the tolerance.  The host passes the tolerance last with a
small positive default; it is taken first here so the embedded functions
can close over it. -/
def isRoughly (error a b : ℚ) : Bool :=
  decide (|a - b| ≤ error)

/-- Path.Geom.CmdMoveStraight of the host (external constant). -/
def CmdMoveStraight : List String := ["G1", "G01"]

/-- Path.Geom.CmdMoveArc of the host (external constant). -/
def CmdMoveArc : List String := ["G2", "G02", "G3", "G03"]

/-- Path.Geom.CmdMoveRapid of the host (external constant). -/
def CmdMoveRapid : List String := ["G0", "G00"]

/-- is_motion of ZFace.py lines 811-819. -/
def is_motion (cmd : Command) : Bool :=
  decide (cmd.name ∈ CmdMoveStraight ++ CmdMoveArc ++ CmdMoveRapid)

/-- is_on_plane of ZFace.py lines 802-809.  The source condition is the
Python truthiness test, line 806: if the command has an explicit Z AND
that Z is nonzero (0.0 is falsy), compare the explicit Z with 0;
otherwise compare the tracked position's Z with 0. -/
def is_on_plane (eps : ℚ) (cmd : Command) (prev_location : Pt) : Bool :=
  match cmd.z with
  | some zv => if zv ≠ 0 then isRoughly eps zv 0 else isRoughly eps prev_location.z 0
  | none => isRoughly eps prev_location.z 0

/-- One step of discretize_commands (ZFace.py lines 846-874): classify the
command, discretize motions through the external edgeForCmd and
edge.discretize primitives, and update the tracked position from the
command's explicit axes.  When edgeForCmd returns none for a motion
command, NO segment is appended: the command is dropped (source comment
line 866: this ignores 0-motion commands, drop it). -/
def discretizeStep {Edge : Type}
    (edgeForCmd : Command → Pt → Option Edge)
    (discretizeDefl : Edge → ℚ → List Pt)
    (discretizeDist : Edge → ℚ → List Pt)
    (eps sampleD curveD : ℚ)
    (st : List TaggedSegment × Pt) (c : Command) : List TaggedSegment × Pt :=
  let kind : SegmentKind :=
    if ¬ is_motion c then .OTHER
    else if is_on_plane eps c st.2 then .IS_ON_PLANE
    else .IS_HIGH
  let segments :=
    if is_motion c then
      match edgeForCmd c st.2 with
      | some edge =>
        let pointlist :=
          if c.name ∈ CmdMoveArc then discretizeDefl edge curveD
          else discretizeDist edge sampleD
        st.1 ++ [⟨kind, c, pointlist⟩]
      | none => st.1
    else st.1 ++ [⟨kind, c, []⟩]
  (segments, { x := (c.x).getD st.2.x, y := (c.y).getD st.2.y, z := (c.z).getD st.2.z })

/-- discretize_commands of ZFace.py lines 821-875, with the external edge
construction and discretization primitives as parameters.  safe_height
and clearance_height are accepted and unused, as in the source. -/
def discretize_commands {Edge : Type}
    (edgeForCmd : Command → Pt → Option Edge)
    (discretizeDefl discretizeDist : Edge → ℚ → List Pt)
    (eps : ℚ)
    (commands : List Command) (start_location : Pt)
    (safe_height clearance_height : ℚ)
    (sampleD curveD : ℚ) : List TaggedSegment :=
  (commands.foldl (discretizeStep edgeForCmd discretizeDefl discretizeDist eps sampleD curveD)
    ([], start_location)).1

/-- The original-path minimum Z baseline of opExecute (ZFace.py
lines 632-641): the minimum Z over all discretized points, or 0.0 when
there are none. -/
def z_original_min (segments : List TaggedSegment) : ℚ :=
  match ((segments.foldr (fun s acc => s.pointlist ++ acc) []).map Pt.z).minimum? with
  | some m => m
  | none => 0

/-- The resolved surface height of the projection loop before the offset
and the clamp (ZFace.py lines 721-731): the surface query result for
on-plane points — safe_height when the query failed — and the stock-top
offset point.z + OpStockZMax otherwise. -/
def resolvedHeight (surfZ : ℚ → ℚ → Option ℚ) (stockZMax safe_height : ℚ)
    (kind : SegmentKind) (point : Pt) : ℚ :=
  match (if kind = SegmentKind.IS_ON_PLANE then surfZ point.x point.y
         else some (point.z + stockZMax)) with
  | none => safe_height
  | some v => v

/-- The per-point Z projection of opExecute (ZFace.py lines 721-756):
resolve the surface height, add the point's offset from the path
baseline, clamp to safe_height, and emit a G1 command carrying X, Y and
the final Z (feed is set later by process_stepdown).  surfZ abstracts
self.get_surface_z. -/
def projectPoint (surfZ : ℚ → ℚ → Option ℚ) (stockZMax safe_height z_min : ℚ)
    (kind : SegmentKind) (point : Pt) : Command :=
  let z_surface := resolvedHeight surfZ stockZMax safe_height kind point
  let internal_offset := point.z - z_min
  let final_z := z_surface + internal_offset
  let final_z := if final_z > safe_height then safe_height else final_z
  { name := "G1", x := some point.x, y := some point.y, z := some final_z, f := none }

/-- The command-generation loop of opExecute over the classified segments
(ZFace.py lines 647-780): OTHER segments and segments with an empty point
list pass the original command through unchanged (the latter with a
warning when XYZ parameters are present); every discretized point of a
motion segment becomes a G1 command via projectPoint.  Progress reporting
and the currLocation bookkeeping do not affect the emitted commands and
are not modelled. -/
def projectSegments (surfZ : ℚ → ℚ → Option ℚ) (stockZMax safe_height z_min : ℚ)
    (segments : List TaggedSegment) : List Command :=
  segments.foldr (fun seg acc =>
    (match seg.kind with
     | SegmentKind.OTHER => [seg.command]
     | _ =>
       if seg.pointlist = [] then [seg.command]
       else seg.pointlist.map (projectPoint surfZ stockZMax safe_height z_min seg.kind)) ++ acc)
    []

/-! ZFace.py: feed-rate interpolation (interpolate_feedrate,
lines 927-972).  The source computes Euclidean lengths with math.sqrt and
math.hypot, so this part is modelled over the reals. -/

/-- FreeCAD.Vector with real coordinates, for the feed computation. -/
structure Vector3 where
  x : ℝ
  y : ℝ
  z : ℝ

/-- The planar length math.hypot(dx, dy) of the move from p0 to p1. -/
noncomputable def dist_xy (p0 p1 : Vector3) : ℝ :=
  Real.sqrt ((p1.x - p0.x) * (p1.x - p0.x) + (p1.y - p0.y) * (p1.y - p0.y))

/-- The full 3D length sqrt(dx*dx + dy*dy + dz*dz) of the move. -/
noncomputable def dist3 (p0 p1 : Vector3) : ℝ :=
  Real.sqrt ((p1.x - p0.x) * (p1.x - p0.x) + (p1.y - p0.y) * (p1.y - p0.y)
    + (p1.z - p0.z) * (p1.z - p0.z))

open Classical in
/-- interpolate_feedrate of ZFace.py lines 927-972: the returned linear
feed (the test_feeds branch only adds the h/v components used by the
inline tests).  eps is the tolerance of the host isRoughly comparisons;
each isRoughly(a, b) of the source appears as a test of |a - b| <= eps.
The tol parameter of the source signature is unused in its body and is
omitted. -/
noncomputable def interpolate_feedrate (eps : ℝ) (p0 p1 : Vector3)
    (horiz_feed vert_feed : ℝ) : ℝ :=
  if ¬ (|dist3 p0 p1 - 0| ≤ eps) then
    if |dist_xy p0 p1 - 0| ≤ eps then
      -- pure vertical: upward fast, downward capped
      if p1.z - p0.z > 0 then horiz_feed else vert_feed
    else if |(p1.z - p0.z) - 0| ≤ eps then
      -- pure horizontal
      horiz_feed
    else
      -- general diagonal
      if p1.z - p0.z > 0 then horiz_feed * dist3 p0 p1 / dist_xy p0 p1
      else min (horiz_feed * dist3 p0 p1 / dist_xy p0 p1)
        (vert_feed * dist3 p0 p1 / |p1.z - p0.z|)
  else vert_feed

/-! ZFace.py: the stepdown planner, lines 884-1097. -/

/-- The axis-accumulating loop of getPoint (ZFace.py lines 888-894): take
the first-found value of each axis; return the point as soon as all three
are known. -/
def getPointAux : List Command → Option ℚ → Option ℚ → Option ℚ → Option Pt
  | [], _, _, _ => none
  | c :: cs, x, y, z =>
    match (if x = none ∧ c.x ≠ none then c.x else x),
        (if y = none ∧ c.y ≠ none then c.y else y),
        (if z = none ∧ c.z ≠ none then c.z else z) with
    | some xv, some yv, some zv => some ⟨xv, yv, zv⟩
    | x', y', z' => getPointAux cs x' y' z'

/-- getPoint of ZFace.py lines 884-903: None when some axis is never
determined by the command list. -/
def getPoint (commands : List Command) : Option Pt :=
  getPointAux commands none none none

/-- isClosedPath of ZFace.py lines 906-914: both endpoints known and
roughly equal in X and Y. -/
def isClosedPath (eps : ℚ) : Option Pt → Option Pt → Bool
  | some p1, some p2 => isRoughly eps p1.x p2.x && isRoughly eps p1.y p2.y
  | _, _ => false

/-- isLower of ZFace.py lines 917-924: z1 strictly below z2 and not
roughly equal; False when either is None. -/
def isLower (eps : ℚ) : Option ℚ → Option ℚ → Bool
  | some z1, some z2 => if isRoughly eps z1 z2 then false else decide (z1 < z2)
  | _, _ => false

/-- The skip test of the stepdown pass (ZFace.py lines 1049-1056): on a
closed profile after the first pass, commands that move no X or Y and
whose Z equals the clearance or safe height exactly are skipped. -/
def skipCmd (clearance_height safe_height : ℚ) (skipZ : Bool) (c : Command) : Bool :=
  skipZ && decide (c.x = none) && decide (c.y = none) &&
    (decide (c.z = some clearance_height) || decide (c.z = some safe_height))

/-- The mutable cursor of one stepdown pass: position, the repeat flag,
and the emitted commands. -/
structure StepState where
  cx : ℚ
  cy : ℚ
  cz : ℚ
  rep : Bool
  cmds : List Command
deriving DecidableEq, Repr

/-- One command of one stepdown pass, ZFace.py lines 1048-1093: skip the
redundant start move on closed profiles, update the position cursor with
the Z clamped to the depth limit (the threshold appears twice in the
source, lines 1064-1070 and 1072-1075, with identical effect), then
either convert the move to a margin-raised rapid through cleared stock or
emit a cutting move with interpolated feed.  feedFn abstracts
interpolate_feedrate (the source computes it from h_feed and v_feed; its
value does not influence the pass structure).  Note the source never
updates prevPoint inside the loop. -/
def stepCmd (eps rapid_margin step_depth h_rapid : ℚ) (feedFn : Pt → Pt → ℚ)
    (rapid_through_cleared : Bool)
    (limit_depth clearance_height safe_height : ℚ) (skipZ : Bool) (prevPoint : Pt)
    (st : StepState) (cmd : Command) : StepState :=
  if skipCmd clearance_height safe_height skipZ cmd then st
  else
    let cx := cmd.x.getD st.cx
    let cy := cmd.y.getD st.cy
    let cz := match cmd.z with
      | some zv => if isLower eps (some zv) (some limit_depth) then limit_depth else zv
      | none => st.cz
    let rep := st.rep || (match cmd.z with
      | some zv => isLower eps (some zv) (some limit_depth)
      | none => false)
    -- duplicated threshold check of lines 1072-1075
    let rep := rep || isLower eps cmd.z (some limit_depth)
    let cz := if isLower eps cmd.z (some limit_depth) then limit_depth else cz
    if rapid_through_cleared &&
        !(isLower eps (some cz) (some (limit_depth + step_depth + rapid_margin))) then
      { cx := cx, cy := cy, cz := cz + rapid_margin, rep := rep,
        cmds := st.cmds ++ [⟨"G1", some cx, some cy, some (cz + rapid_margin), some h_rapid⟩] }
    else
      { cx := cx, cy := cy, cz := cz, rep := rep,
        cmds := st.cmds ++ [⟨"G1", some cx, some cy, some cz,
          some (feedFn prevPoint ⟨cx, cy, cz⟩)⟩] }

/-- One pass of the stepdown loop, ZFace.py lines 1036-1093: prepend the
safety moves to the pass start point unless skipped for a closed profile,
then walk the path commands from the start position.  Returns the
extended command list and the repeat flag. -/
def runPass (eps rapid_margin step_depth h_rapid : ℚ) (feedFn : Pt → Pt → ℚ)
    (rapid_through_cleared : Bool) (clearance_height safe_height : ℚ)
    (pathCmds : List Command) (startPoint : Pt)
    (acc : List Command) (limit_depth : ℚ) (skipZ : Bool) : List Command × Bool :=
  let acc' := if !skipZ then
      acc ++ [⟨"G0", none, none, some startPoint.z, none⟩,
              ⟨"G0", some startPoint.x, some startPoint.y, none, none⟩]
    else acc
  let st := pathCmds.foldl
    (stepCmd eps rapid_margin step_depth h_rapid feedFn rapid_through_cleared
      limit_depth clearance_height safe_height skipZ startPoint)
    ⟨startPoint.x, startPoint.y, startPoint.z, false, acc'⟩
  (st.cmds, st.rep)

/-- The while loop of process_stepdown (ZFace.py lines 1034-1095), with
explicit fuel: each iteration lowers the sinking depth limit by
step_depth and repeats while some command still required clamping.  Fuel
exhaustion returns none (the source loop runs forever for a nonpositive
step_depth when the path has deep enough points). -/
def stepdownLoop (eps rapid_margin step_depth h_rapid : ℚ) (feedFn : Pt → Pt → ℚ)
    (rapid_through_cleared : Bool) (clearance_height safe_height : ℚ)
    (pathCmds : List Command) (startPoint : Pt) (closed : Bool) :
    ℕ → List Command → ℚ → Bool → Option (List Command)
  | 0, _, _, _ => none
  | fuel + 1, acc, limit_depth, firstStep =>
    match runPass eps rapid_margin step_depth h_rapid feedFn rapid_through_cleared
      clearance_height safe_height pathCmds startPoint acc (limit_depth - step_depth)
      (!firstStep && closed) with
    | (acc', rep) =>
      if rep then
        stepdownLoop eps rapid_margin step_depth h_rapid feedFn rapid_through_cleared
          clearance_height safe_height pathCmds startPoint closed fuel acc'
          (limit_depth - step_depth) false
      else some acc'

/-- process_stepdown of ZFace.py lines 1007-1097, with recursion fuel for
the while loop.  The feed interpolation is abstracted as feedFn (the
source builds it from h_feed and v_feed; v_rapid is accepted by the
source and unused).  rapid_margin is 0.5 (line 1032) and
rapid_through_cleared defaults to True.  When getPoint cannot determine a
start point the source raises an AttributeError on the first pass; this
is modelled as none. -/
def process_stepdown (fuel : ℕ) (eps : ℚ) (feedFn : Pt → Pt → ℚ)
    (path : List Command) (step_depth start_depth clearance_height safe_height : ℚ)
    (h_rapid : ℚ) (rapid_through_cleared : Bool) : Option (List Command) :=
  match getPoint path with
  | none => none
  | some startPoint =>
    stepdownLoop eps (1 / 2) step_depth h_rapid feedFn rapid_through_cleared
      clearance_height safe_height path startPoint
      (isClosedPath eps (some startPoint) (getPoint path.reverse))
      fuel [] start_depth true

/-! ZFace.py: the opExecute preamble, lines 524-577, and _clear_cache,
lines 447-453. -/

/-- The cache-relevant slice of the FreeCAD object together with the op's
runtime state: the persistent point cache (obj.PointCache), the runtime
quadtree store modelled by its point contents (self._runtime_quadtree),
the BlockCacheInvalidation flag, the stored state hash
(obj._CacheStateHash) and the output path (obj.Path). -/
structure ObjState where
  pointCache : List Pt
  runtimeQuadtree : Option (List Pt)
  blockCacheInvalidation : Bool
  cacheStateHash : String
  path : List Command
deriving DecidableEq, Repr

/-- How the opExecute preamble ends: one of the three early returns, or
fall-through to the projection work. -/
inductive PreambleResult where
  | abortToolShape
  | abortNoFaces
  | abortBadBase
  | proceed
deriving DecidableEq, Repr

/-- _clear_cache of ZFace.py lines 447-453: unless invalidation is
blocked, empty the persistent point cache and drop the runtime
quadtree. -/
def clear_cache (st : ObjState) : ObjState :=
  if !st.blockCacheInvalidation then
    { st with pointCache := [], runtimeQuadtree := none }
  else st

/-- The opExecute preamble, ZFace.py lines 524-577: the tool-shape check
(lines 531-533), then the state-hash comparison that clears the cache on
a change and the unconditional hash update (lines 552-559), then the
no-faces abort which reverts obj.Path to the placed base path (lines
565-568) and the bad-base abort which sets obj.Path to an empty path
(lines 570-579).  basePath is none when obj.BasePath is missing or not a
Path feature, some of its commands otherwise; originalBase is
PathUtils.getPathWithPlacement(obj.BasePath). -/
def opExecute_preamble (toolShapeId : String) (faces : List String)
    (currentHash : String) (basePath : Option (List Command))
    (originalBase : List Command) (st : ObjState) :
    PreambleResult × ObjState :=
  if toolShapeId ≠ "endmill" then (PreambleResult.abortToolShape, st)
  else
    let st1 := if currentHash ≠ st.cacheStateHash then clear_cache st else st
    let st2 := { st1 with cacheStateHash := currentHash }
    if faces = [] then (PreambleResult.abortNoFaces, { st2 with path := originalBase })
    else if basePath = none ∨ basePath = some [] then
      (PreambleResult.abortBadBase, { st2 with path := [] })
    else (PreambleResult.proceed, st2)

/-- The top-level containment part of well-formedness. -/
theorem Wf.containsAll {n : Node} (h : n.Wf) :
    ∀ p ∈ n.allPoints, n.contains p.x p.y = true := by
  cases n with
  | leaf xmin xmax ymin ymax cap pts => exact h
  | node xmin xmax ymin ymax cap pts nw ne sw se => exact h.1

/-- The bounding-box pruning bound: the minimal box distance of a node is a
lower bound for the squared distance to any sample inside the box. -/
theorem minDistSq_le_dSq (n : Node) (x y : ℚ) (p : Pt)
    (hp : n.contains p.x p.y = true) : n.minDistSq x y ≤ dSq x y p := by
  unfold Node.contains at hp
  simp only [Bool.and_eq_true, decide_eq_true_eq] at hp
  obtain ⟨⟨h1, h2⟩, h3, h4⟩ := hp
  unfold Node.minDistSq dSq
  have hx : (if x < n.xmin then n.xmin - x else if x > n.xmax then x - n.xmax else 0) *
      (if x < n.xmin then n.xmin - x else if x > n.xmax then x - n.xmax else 0) ≤
      (p.x - x) * (p.x - x) := by
    split_ifs with hlt hgt
    · nlinarith
    · nlinarith
    · nlinarith [mul_self_nonneg (p.x - x)]
  have hy : (if y < n.ymin then n.ymin - y else if y > n.ymax then y - n.ymax else 0) *
      (if y < n.ymin then n.ymin - y else if y > n.ymax then y - n.ymax else 0) ≤
      (p.y - y) * (p.y - y) := by
    split_ifs with hlt hgt
    · nlinarith
    · nlinarith
    · nlinarith [mul_self_nonneg (p.y - y)]
  simp only []
  exact add_le_add hx hy

/-- IsBestOf only depends on the membership of the candidate list. -/
theorem isBestOf_congr {x y : ℚ} {c1 c2 : List Pt} (h : ∀ q, q ∈ c1 ↔ q ∈ c2)
    {r : Option (ℚ × Pt)} (hr : IsBestOf x y c1 r) : IsBestOf x y c2 r := by
  cases r with
  | none =>
    simp only [IsBestOf] at hr ⊢
    subst hr
    rcases c2 with _ | ⟨a, c2⟩
    · rfl
    · exact absurd ((h a).mpr (by simp)) (by simp)
  | some v =>
    obtain ⟨d2, p⟩ := v
    obtain ⟨hm, hd, hmin⟩ := hr
    exact ⟨(h p).mp hm, hd, fun q hq => hmin q ((h q).mpr hq)⟩

/-- One comparison step of the point scan preserves the best-candidate
specification, adding the scanned point to the candidate set. -/
theorem scanBest_isBestOf {x y : ℚ} {C : List Pt} {best : Option (ℚ × Pt)} (p : Pt)
    (h : IsBestOf x y C best) : IsBestOf x y (C ++ [p]) (scanBest x y best p) := by
  cases best with
  | none =>
    simp only [IsBestOf] at h
    subst h
    simp [scanBest, IsBestOf]
  | some v =>
    obtain ⟨bd, bp⟩ := v
    obtain ⟨hm, hd, hmin⟩ := h
    simp only [scanBest]
    split_ifs with hlt
    · refine ⟨by simp, rfl, ?_⟩
      intro q hq
      rcases List.mem_append.mp hq with hq | hq
      · exact le_of_lt (lt_of_lt_of_le hlt (hmin q hq))
      · simp only [List.mem_singleton] at hq; subst hq; rfl
    · refine ⟨by simp [hm], hd, ?_⟩
      intro q hq
      rcases List.mem_append.mp hq with hq | hq
      · exact hmin q hq
      · simp only [List.mem_singleton] at hq; subst hq; exact le_of_not_lt hlt

/-- The scan over a node's own point bucket preserves the best-candidate
specification, adding the bucket to the candidate set. -/
theorem scanPoints_isBestOf {x y : ℚ} (pts : List Pt) :
    ∀ {C : List Pt} {best : Option (ℚ × Pt)}, IsBestOf x y C best →
      IsBestOf x y (C ++ pts) (scanPoints x y pts best) := by
  induction pts with
  | nil => intro C best h; simpa [scanPoints] using h
  | cons p pts ih =>
    intro C best h
    have h1 := scanBest_isBestOf (x := x) (y := y) p h
    have h2 := ih h1
    refine isBestOf_congr (fun q => ?_) h2
    simp only [List.mem_append, List.mem_cons, List.mem_singleton]
    tauto

/-- Two lists equal as multisets have the same members. -/
theorem mem_iff_of_coe_eq {l l' : List Pt} (h : (l : Multiset Pt) = ↑l') (q : Pt) :
    q ∈ l ↔ q ∈ l' :=
  (Multiset.coe_eq_coe.mp h).mem_iff

/-- An empty leaf is well-formed. -/
theorem wf_empty_leaf (xmin xmax ymin ymax : ℚ) (cap : ℕ) :
    (Node.leaf xmin xmax ymin ymax cap []).Wf := by
  intro p hp
  simp [Node.allPoints] at hp

/-- The insertInto4 child loop satisfies its specification whenever the
abstract single-node insertion does. -/
theorem insertInto4_ok (ins : Node → Pt → Option (Node × Bool))
    (hins : ∀ m q, InsOk m q (ins m q)) (nw ne sw se : Node) (p : Pt) :
    I4Ok nw ne sw se p (insertInto4 ins nw ne sw se p) := by
  have h1 := hins nw p
  unfold insertInto4
  cases e1 : ins nw p with
  | none => exact trivial
  | some r1 =>
  obtain ⟨nw', b1⟩ := r1
  rw [e1] at h1
  obtain ⟨h1f, h1t, h1w⟩ := h1
  cases b1 with
  | true =>
    obtain ⟨-, hm1⟩ := h1t rfl
    refine ⟨by simp, fun _ => ?_, fun h => h1w h, fun h => h, fun h => h, fun h => h⟩
    simp only [hm1, Multiset.cons_add]
  | false =>
  obtain rfl := h1f rfl
  have h2 := hins ne p
  cases e2 : ins ne p with
  | none => exact trivial
  | some r2 =>
  obtain ⟨ne', b2⟩ := r2
  rw [e2] at h2
  obtain ⟨h2f, h2t, h2w⟩ := h2
  cases b2 with
  | true =>
    obtain ⟨-, hm2⟩ := h2t rfl
    refine ⟨by simp, fun _ => ?_, fun h => h, fun h => h2w h, fun h => h, fun h => h⟩
    simp only [hm2, Multiset.cons_add, Multiset.add_cons]
  | false =>
  obtain rfl := h2f rfl
  have h3 := hins sw p
  cases e3 : ins sw p with
  | none => exact trivial
  | some r3 =>
  obtain ⟨sw', b3⟩ := r3
  rw [e3] at h3
  obtain ⟨h3f, h3t, h3w⟩ := h3
  cases b3 with
  | true =>
    obtain ⟨-, hm3⟩ := h3t rfl
    refine ⟨by simp, fun _ => ?_, fun h => h, fun h => h, fun h => h3w h, fun h => h⟩
    simp only [hm3, Multiset.cons_add, Multiset.add_cons]
  | false =>
  obtain rfl := h3f rfl
  have h4 := hins se p
  cases e4 : ins se p with
  | none => exact trivial
  | some r4 =>
  obtain ⟨se', b4⟩ := r4
  rw [e4] at h4
  obtain ⟨h4f, h4t, h4w⟩ := h4
  cases b4 with
  | true =>
    obtain ⟨-, hm4⟩ := h4t rfl
    refine ⟨by simp, fun _ => ?_, fun h => h, fun h => h, fun h => h, fun h => h4w h⟩
    simp only [hm4, Multiset.cons_add, Multiset.add_cons]
  | false =>
    obtain rfl := h4f rfl
    exact ⟨fun _ => ⟨rfl, rfl, rfl, rfl⟩, by simp, fun h => h, fun h => h, fun h => h, fun h => h⟩

/-- The redistribution loop satisfies its specification whenever the
abstract single-node insertion does. -/
theorem redistribute_ok (ins : Node → Pt → Option (Node × Bool))
    (hins : ∀ m q, InsOk m q (ins m q)) :
    ∀ (qs : List Pt) (nw ne sw se : Node) (kept : List Pt),
      RedisOk nw ne sw se kept qs (redistribute ins nw ne sw se kept qs) := by
  intro qs
  induction qs with
  | nil =>
    intro nw ne sw se kept
    refine ⟨by simp, fun h => h, fun h => h, fun h => h, fun h => h⟩
  | cons q qs ih =>
    intro nw ne sw se kept
    have h4 := insertInto4_ok ins hins nw ne sw se q
    rw [redistribute]
    cases e : insertInto4 ins nw ne sw se q with
    | none => exact trivial
    | some r =>
    obtain ⟨c1, c2, c3, c4, inserted⟩ := r
    rw [e] at h4
    obtain ⟨h4f, h4t, w1, w2, w3, w4⟩ := h4
    cases inserted with
    | true =>
      have hm4 := h4t rfl
      show RedisOk nw ne sw se kept (q :: qs) (redistribute ins c1 c2 c3 c4 kept qs)
      have hrec := ih c1 c2 c3 c4 kept
      cases hres : redistribute ins c1 c2 c3 c4 kept qs with
      | none => exact trivial
      | some r2 =>
      obtain ⟨f1, f2, f3, f4, kept2⟩ := r2
      rw [hres] at hrec
      obtain ⟨hm, v1, v2, v3, v4⟩ := hrec
      refine ⟨?_, fun h => v1 (w1 h), fun h => v2 (w2 h), fun h => v3 (w3 h), fun h => v4 (w4 h)⟩
      rw [hm, hm4]
      simp only [← Multiset.cons_coe, ← Multiset.singleton_add, ← Multiset.coe_add,
        Multiset.coe_singleton, Multiset.coe_nil]
      abel
    | false =>
      obtain ⟨hq1, hq2, hq3, hq4⟩ := h4f rfl
      rw [hq1, hq2, hq3, hq4]
      show RedisOk nw ne sw se kept (q :: qs) (redistribute ins nw ne sw se (kept ++ [q]) qs)
      have hrec := ih nw ne sw se (kept ++ [q])
      cases hres : redistribute ins nw ne sw se (kept ++ [q]) qs with
      | none => exact trivial
      | some r2 =>
      obtain ⟨f1, f2, f3, f4, kept2⟩ := r2
      rw [hres] at hrec
      obtain ⟨hm, v1, v2, v3, v4⟩ := hrec
      refine ⟨?_, v1, v2, v3, v4⟩
      rw [hm]
      simp only [← Multiset.cons_coe, ← Multiset.singleton_add, ← Multiset.coe_add,
        Multiset.coe_singleton, Multiset.coe_nil]
      abel

/-- The childrenInsert tail satisfies its specification whenever the
abstract single-node insertion does. -/
theorem childrenInsert_ok (ins : Node → Pt → Option (Node × Bool))
    (hins : ∀ m q, InsOk m q (ins m q)) (xmin xmax ymin ymax : ℚ) (cap : ℕ)
    (pts : List Pt) (nw ne sw se : Node) (p : Pt) :
    CIOk xmin xmax ymin ymax pts nw ne sw se p
      (childrenInsert ins xmin xmax ymin ymax cap pts nw ne sw se p) := by
  have h4 := insertInto4_ok ins hins nw ne sw se p
  unfold childrenInsert
  cases e : insertInto4 ins nw ne sw se p with
  | none => exact trivial
  | some r =>
  obtain ⟨d1, d2, d3, d4, b⟩ := r
  rw [e] at h4
  obtain ⟨h4f, h4t, u1, u2, u3, u4⟩ := h4
  cases b with
  | true =>
    have hm4 := h4t rfl
    show CIOk xmin xmax ymin ymax pts nw ne sw se p
      (some (.node xmin xmax ymin ymax cap pts d1 d2 d3 d4, true))
    refine ⟨rfl, ?_, ?_⟩
    · show ((pts ++ (d1.allPoints ++ (d2.allPoints ++ (d3.allPoints ++ d4.allPoints)))
          : List Pt) : Multiset Pt) = _
      calc ((pts ++ (d1.allPoints ++ (d2.allPoints ++ (d3.allPoints ++ d4.allPoints)))
            : List Pt) : Multiset Pt)
          = ((d1.allPoints : Multiset Pt) + ↑d2.allPoints + ↑d3.allPoints + ↑d4.allPoints)
            + (pts : Multiset Pt) := by
            simp only [← Multiset.coe_add]
            abel
        _ = (p ::ₘ ((nw.allPoints : Multiset Pt) + ↑ne.allPoints + ↑sw.allPoints + ↑se.allPoints))
            + (pts : Multiset Pt) := by rw [hm4]
        _ = p ::ₘ ((pts : Multiset Pt) + ↑nw.allPoints + ↑ne.allPoints + ↑sw.allPoints
            + ↑se.allPoints) := by
            rw [Multiset.cons_add]
            congr 1
            abel
    · intro wnw wne wsw wse hcont
      exact ⟨hcont, u1 wnw, u2 wne, u3 wsw, u4 wse⟩
  | false =>
    obtain ⟨hq1, hq2, hq3, hq4⟩ := h4f rfl
    rw [hq1, hq2, hq3, hq4]
    show CIOk xmin xmax ymin ymax pts nw ne sw se p
      (some (.node xmin xmax ymin ymax cap (pts ++ [p]) nw ne sw se, true))
    refine ⟨rfl, ?_, ?_⟩
    · show (((pts ++ [p]) ++ (nw.allPoints ++ (ne.allPoints ++ (sw.allPoints ++ se.allPoints)))
          : List Pt) : Multiset Pt) = _
      simp only [← Multiset.cons_coe, ← Multiset.singleton_add, ← Multiset.coe_add,
        Multiset.coe_singleton, Multiset.coe_nil]
      abel
    · intro wnw wne wsw wse hcont
      exact ⟨hcont, wnw, wne, wsw, wse⟩

/-- The at-capacity overflow path satisfies the single-node insertion
specification for the original leaf. -/
theorem overflowInsert_ok (ins : Node → Pt → Option (Node × Bool))
    (hins : ∀ m q, InsOk m q (ins m q)) (xmin xmax ymin ymax : ℚ) (cap : ℕ)
    (pts : List Pt) (p : Pt)
    (hc : (Node.leaf xmin xmax ymin ymax cap pts).contains p.x p.y = true) :
    InsOk (Node.leaf xmin xmax ymin ymax cap pts) p
      (overflowInsert ins xmin xmax ymin ymax cap pts p) := by
  have hred := redistribute_ok ins hins pts
    (.leaf xmin ((xmin + xmax) / 2) ((ymin + ymax) / 2) ymax cap [])
    (.leaf ((xmin + xmax) / 2) xmax ((ymin + ymax) / 2) ymax cap [])
    (.leaf xmin ((xmin + xmax) / 2) ymin ((ymin + ymax) / 2) cap [])
    (.leaf ((xmin + xmax) / 2) xmax ymin ((ymin + ymax) / 2) cap []) []
  unfold overflowInsert
  cases hres : redistribute ins
      (.leaf xmin ((xmin + xmax) / 2) ((ymin + ymax) / 2) ymax cap [])
      (.leaf ((xmin + xmax) / 2) xmax ((ymin + ymax) / 2) ymax cap [])
      (.leaf xmin ((xmin + xmax) / 2) ymin ((ymin + ymax) / 2) cap [])
      (.leaf ((xmin + xmax) / 2) xmax ymin ((ymin + ymax) / 2) cap []) [] pts with
  | none => exact trivial
  | some r =>
  obtain ⟨c1, c2, c3, c4, kept⟩ := r
  rw [hres] at hred
  obtain ⟨hredm, rw1, rw2, rw3, rw4⟩ := hred
  simp only [Node.allPoints, Multiset.coe_nil, add_zero, zero_add] at hredm
  have hci := childrenInsert_ok ins hins xmin xmax ymin ymax cap kept c1 c2 c3 c4 p
  show InsOk (Node.leaf xmin xmax ymin ymax cap pts) p
    (childrenInsert ins xmin xmax ymin ymax cap kept c1 c2 c3 c4 p)
  cases hcres : childrenInsert ins xmin xmax ymin ymax cap kept c1 c2 c3 c4 p with
  | none => exact trivial
  | some r2 =>
  obtain ⟨n', b⟩ := r2
  rw [hcres] at hci
  obtain ⟨rfl, hmem, hwfcond⟩ := hci
  have hsum : (n'.allPoints : Multiset Pt)
      = p ::ₘ ((Node.leaf xmin xmax ymin ymax cap pts).allPoints : Multiset Pt) := by
    rw [hmem]
    show _ = p ::ₘ ((pts : List Pt) : Multiset Pt)
    congr 1
    calc ((kept : Multiset Pt) + ↑c1.allPoints + ↑c2.allPoints + ↑c3.allPoints + ↑c4.allPoints)
        = (c1.allPoints : Multiset Pt) + ↑c2.allPoints + ↑c3.allPoints + ↑c4.allPoints
          + ↑kept := by abel
      _ = ((pts : List Pt) : Multiset Pt) := hredm
  refine ⟨by simp, fun _ => ⟨hc, hsum⟩, ?_⟩
  intro hwf
  refine hwfcond (rw1 (wf_empty_leaf _ _ _ _ _)) (rw2 (wf_empty_leaf _ _ _ _ _))
    (rw3 (wf_empty_leaf _ _ _ _ _)) (rw4 (wf_empty_leaf _ _ _ _ _)) ?_
  intro q hq
  have hq' : q ∈ p ::ₘ ((Node.leaf xmin xmax ymin ymax cap pts).allPoints : Multiset Pt) := by
    rw [← hsum]
    simpa using hq
  simp only [Multiset.mem_cons, Multiset.mem_coe] at hq'
  rcases hq' with rfl | hq'
  · exact hc
  · exact hwf q hq'

/-- One unfolding of the insertion body satisfies the single-node insertion
specification whenever the recursive insertions do. -/
theorem insertBody_ok (ins : Node → Pt → Option (Node × Bool))
    (hins : ∀ m q, InsOk m q (ins m q)) (n : Node) (p : Pt) :
    InsOk n p (insertBody ins n p) := by
  unfold insertBody
  cases hc : n.contains p.x p.y with
  | false =>
    rw [if_pos rfl]
    exact ⟨fun _ => rfl, by simp, fun h => h⟩
  | true =>
    rw [if_neg (by simp)]
    cases n with
    | leaf xmin xmax ymin ymax cap pts =>
      show InsOk _ _
        (if pts.length < cap then some (.leaf xmin xmax ymin ymax cap (pts ++ [p]), true)
         else overflowInsert ins xmin xmax ymin ymax cap pts p)
      by_cases hlen : pts.length < cap
      · rw [if_pos hlen]
        refine ⟨by simp, fun _ => ⟨hc, ?_⟩, ?_⟩
        · show ((pts ++ [p] : List Pt) : Multiset Pt) = p ::ₘ ((pts : List Pt) : Multiset Pt)
          simp only [← Multiset.cons_coe, ← Multiset.singleton_add, ← Multiset.coe_add,
            Multiset.coe_singleton, Multiset.coe_nil]
          abel
        · intro hwf q hq
          simp only [Node.allPoints, List.mem_append, List.mem_singleton] at hq
          rcases hq with hq | rfl
          · exact hwf q hq
          · exact hc
      · rw [if_neg hlen]
        exact overflowInsert_ok ins hins xmin xmax ymin ymax cap pts p hc
    | node xmin xmax ymin ymax cap pts nw ne sw se =>
      show InsOk _ _ (childrenInsert ins xmin xmax ymin ymax cap pts nw ne sw se p)
      have hci := childrenInsert_ok ins hins xmin xmax ymin ymax cap pts nw ne sw se p
      cases hcres : childrenInsert ins xmin xmax ymin ymax cap pts nw ne sw se p with
      | none => exact trivial
      | some r =>
      obtain ⟨n', b⟩ := r
      rw [hcres] at hci
      obtain ⟨rfl, hmem, hwfcond⟩ := hci
      have hsum : (n'.allPoints : Multiset Pt)
          = p ::ₘ ((Node.node xmin xmax ymin ymax cap pts nw ne sw se).allPoints : Multiset Pt) := by
        rw [hmem]
        show _ = p ::ₘ ((pts ++ (nw.allPoints ++ (ne.allPoints ++ (sw.allPoints ++ se.allPoints)))
            : List Pt) : Multiset Pt)
        congr 1
        simp only [← Multiset.coe_add]
        abel
      refine ⟨by simp, fun _ => ⟨hc, hsum⟩, ?_⟩
      intro hwf
      obtain ⟨hcont, wnw, wne, wsw, wse⟩ := hwf
      refine hwfcond wnw wne wsw wse ?_
      intro q hq
      have hq' : q ∈ p ::ₘ ((Node.node xmin xmax ymin ymax cap pts nw ne sw se).allPoints
          : Multiset Pt) := by
        rw [← hsum]
        simpa using hq
      simp only [Multiset.mem_cons, Multiset.mem_coe] at hq'
      rcases hq' with rfl | hq'
      · exact hc
      · exact hcont q hq'


/-- Node.insert satisfies the single-node insertion specification at every
fuel. -/
theorem insert_ok : ∀ (fuel : ℕ) (n : Node) (p : Pt), InsOk n p (Node.insert fuel n p) := by
  intro fuel
  induction fuel with
  | zero => intro n p; exact trivial
  | succ fuel ih =>
    intro n p
    exact insertBody_ok _ (fun m q => ih m q) n p

/-- When the pruning test fires, keeping the current best candidate is
sound: every sample in the pruned subtree is at least as far as the best
candidate. -/
theorem pruned_isBestOf {x y : ℚ} {n : Node} {best : Option (ℚ × Pt)} {C : List Pt}
    (hwf : n.Wf) (hb : IsBestOf x y C best) (hp : pruneCheck n x y best = true) :
    IsBestOf x y (C ++ n.allPoints) best := by
  cases best with
  | none => simp [pruneCheck] at hp
  | some v =>
    obtain ⟨bd, bp⟩ := v
    simp only [pruneCheck, decide_eq_true_eq] at hp
    obtain ⟨hm, hd, hmin⟩ := hb
    refine ⟨List.mem_append_left _ hm, hd, ?_⟩
    intro q hq
    rcases List.mem_append.mp hq with hq | hq
    · exact hmin q hq
    · exact le_trans hp (minDistSq_le_dSq n x y q (Wf.containsAll hwf q hq))

/-- Membership in the concatenation of the sample lists of a list of
nodes. -/
theorem mem_foldr_allPoints {q : Pt} : ∀ (cs : List Node),
    q ∈ cs.foldr (fun c acc => c.allPoints ++ acc) [] ↔ ∃ c ∈ cs, q ∈ c.allPoints := by
  intro cs
  induction cs with
  | nil => simp
  | cons c cs ih => simp [ih]

/-- Folding Node.nearest over a list of well-formed subtrees preserves the
best-candidate specification and accumulates their samples as
candidates. -/
theorem foldl_nearest_isBestOf (x y : ℚ) (f : ℕ × ℚ → Node)
    (hspec : ∀ i, (∀ C best, IsBestOf x y C best →
      IsBestOf x y (C ++ (f i).allPoints) (Node.nearest x y (f i) best))) :
    ∀ (l : List (ℕ × ℚ)) (C : List Pt) (best : Option (ℚ × Pt)), IsBestOf x y C best →
      IsBestOf x y (C ++ (l.map f).foldr (fun c acc => c.allPoints ++ acc) [])
        (l.foldl (fun b i => Node.nearest x y (f i) b) best) := by
  intro l
  induction l with
  | nil => intro C best hb; simpa using hb
  | cons i l ih =>
    intro C best hb
    have h1 := hspec i C best hb
    have h2 := ih (C ++ (f i).allPoints) _ h1
    refine isBestOf_congr (fun q => ?_) h2
    simp only [List.map_cons, List.foldr_cons, List.mem_append, List.append_assoc]
    try tauto

set_option maxHeartbeats 1000000 in
/-- Correctness of Node.nearest on well-formed trees: starting from a valid
best candidate for candidate set C, it returns a valid best candidate for C
together with all samples stored in the subtree.  In particular the
bounding-box pruning and the child visiting order never lose a closer
sample. -/
theorem nearest_isBestOf (x y : ℚ) :
    ∀ (n : Node), n.Wf → ∀ (C : List Pt) (best : Option (ℚ × Pt)), IsBestOf x y C best →
      IsBestOf x y (C ++ n.allPoints) (Node.nearest x y n best) := by
  intro n
  induction n with
  | leaf xmin xmax ymin ymax cap pts =>
    intro hwf C best hb
    simp only [Node.nearest]
    by_cases hp : pruneCheck (Node.leaf xmin xmax ymin ymax cap pts) x y best = true
    · rw [if_pos hp]
      exact pruned_isBestOf hwf hb hp
    · rw [if_neg hp]
      exact scanPoints_isBestOf pts hb
  | node xmin xmax ymin ymax cap pts nw ne sw se ihnw ihne ihsw ihse =>
    intro hwf C best hb
    obtain ⟨hcont, wnw, wne, wsw, wse⟩ := hwf
    simp only [Node.nearest]
    by_cases hp : pruneCheck (Node.node xmin xmax ymin ymax cap pts nw ne sw se) x y best = true
    · rw [if_pos hp]
      exact pruned_isBestOf ⟨hcont, wnw, wne, wsw, wse⟩ hb hp
    · rw [if_neg hp]
      have hfun : (fun (b : Option (ℚ × Pt)) (i : ℕ × ℚ) =>
          match i.1 with
          | 0 => Node.nearest x y nw b
          | 1 => Node.nearest x y ne b
          | 2 => Node.nearest x y sw b
          | _ => Node.nearest x y se b)
          = fun (b : Option (ℚ × Pt)) (i : ℕ × ℚ) => Node.nearest x y
              (match i.1 with
               | 0 => nw
               | 1 => ne
               | 2 => sw
               | _ => se) b := by
        funext b i
        obtain ⟨k, key⟩ := i
        rcases k with _ | _ | _ | k <;> rfl
      rw [hfun]
      have hspec : ∀ (i : ℕ × ℚ), ∀ C' best', IsBestOf x y C' best' →
          IsBestOf x y (C' ++ (match i.1 with
            | 0 => nw | 1 => ne | 2 => sw | _ => se : Node).allPoints)
            (Node.nearest x y (match i.1 with
              | 0 => nw | 1 => ne | 2 => sw | _ => se) best') := by
        intro i
        obtain ⟨k, key⟩ := i
        rcases k with _ | _ | _ | k
        · exact fun C' b' h => ihnw wnw C' b' h
        · exact fun C' b' h => ihne wne C' b' h
        · exact fun C' b' h => ihsw wsw C' b' h
        · exact fun C' b' h => ihse wse C' b' h
      have hb1 := scanPoints_isBestOf (x := x) (y := y) pts hb
      have hfold := foldl_nearest_isBestOf x y
        (fun i => match i.1 with | 0 => nw | 1 => ne | 2 => sw | _ => se) hspec
        (List.insertionSort (fun a b => a.2 ≤ b.2)
          [((0 : ℕ), nw.childKey x y), (1, ne.childKey x y),
           (2, sw.childKey x y), (3, se.childKey x y)])
        (C ++ pts) _ hb1
      refine isBestOf_congr (fun q => ?_) hfold
      have hmem : ∀ a : ℕ × ℚ, a ∈ List.insertionSort (fun a b => a.2 ≤ b.2)
          [((0 : ℕ), nw.childKey x y), (1, ne.childKey x y),
           (2, sw.childKey x y), (3, se.childKey x y)]
          ↔ a ∈ [((0 : ℕ), nw.childKey x y), (1, ne.childKey x y),
           (2, sw.childKey x y), (3, se.childKey x y)] :=
        fun a => (List.perm_insertionSort _ _).mem_iff
      have hexists : (∃ c ∈ (List.insertionSort (fun a b => a.2 ≤ b.2)
          [((0 : ℕ), nw.childKey x y), (1, ne.childKey x y),
           (2, sw.childKey x y), (3, se.childKey x y)]).map
            (fun i => match i.1 with | 0 => nw | 1 => ne | 2 => sw | _ => se),
            q ∈ c.allPoints)
          ↔ (q ∈ nw.allPoints ∨ q ∈ ne.allPoints ∨ q ∈ sw.allPoints ∨ q ∈ se.allPoints) := by
        simp only [List.mem_map]
        constructor
        · rintro ⟨c, ⟨i, hi, rfl⟩, hq⟩
          rw [hmem i] at hi
          simp only [List.mem_cons, List.not_mem_nil, or_false] at hi
          rcases hi with rfl | rfl | rfl | rfl
          · exact Or.inl hq
          · exact Or.inr (Or.inl hq)
          · exact Or.inr (Or.inr (Or.inl hq))
          · exact Or.inr (Or.inr (Or.inr hq))
        · rintro (hq | hq | hq | hq)
          · exact ⟨nw, ⟨(0, nw.childKey x y), (hmem _).mpr (by simp), rfl⟩, hq⟩
          · exact ⟨ne, ⟨(1, ne.childKey x y), (hmem _).mpr (by simp), rfl⟩, hq⟩
          · exact ⟨sw, ⟨(2, sw.childKey x y), (hmem _).mpr (by simp), rfl⟩, hq⟩
          · exact ⟨se, ⟨(3, se.childKey x y), (hmem _).mpr (by simp), rfl⟩, hq⟩
      simp only [List.mem_append, mem_foldr_allPoints, hexists, Node.allPoints]
      tauto

/-- The quadtree constructor produces a well-formed (empty) tree. -/
theorem quadtree_make_wf (xmin xmax ymin ymax : ℚ) (cap : ℕ) :
    (QuadTree.make xmin xmax ymin ymax cap).root.Wf :=
  wf_empty_leaf _ _ _ _ _

/-- A successful batch insertion preserves well-formedness and the final
tree stores exactly the accepted points on top of the initial ones. -/
theorem quadtree_insertList_ok (fuel : ℕ) :
    ∀ (ps : List Pt) (q q' : QuadTree) (acc : List Pt),
      QuadTree.insertList fuel q ps = some (q', acc) →
      (q.root.Wf → q'.root.Wf) ∧
      (q'.root.allPoints : Multiset Pt) = ↑acc + ↑q.root.allPoints := by
  intro ps
  induction ps with
  | nil =>
    intro q q' acc h
    simp only [QuadTree.insertList, Option.some.injEq, Prod.mk.injEq] at h
    obtain ⟨rfl, rfl⟩ := h
    simp
  | cons p ps ih =>
    intro q q' acc h
    rw [QuadTree.insertList] at h
    unfold QuadTree.insert at h
    revert h
    cases en : Node.insert fuel q.root p with
    | none => intro h; exact Option.noConfusion h
    | some r =>
    obtain ⟨n1, b⟩ := r
    intro h
    have hio := insert_ok fuel q.root p
    rw [en] at hio
    obtain ⟨hiof, hiot, hiow⟩ := hio
    have h1 : (match QuadTree.insertList fuel ⟨n1⟩ ps with
        | none => none
        | some (q'', acc2) => some (q'', if b then p :: acc2 else acc2)) = some (q', acc) := h
    clear h
    revert h1
    cases e2 : QuadTree.insertList fuel ⟨n1⟩ ps with
    | none => intro h1; exact Option.noConfusion h1
    | some r2 =>
    obtain ⟨q2, acc2⟩ := r2
    intro h1
    have h2 : some (q2, if b then p :: acc2 else acc2) = some (q', acc) := h1
    simp only [Option.some.injEq, Prod.mk.injEq] at h2
    obtain ⟨rfl, rfl⟩ := h2
    obtain ⟨ihw, ihm⟩ := ih ⟨n1⟩ q2 acc2 e2
    cases b with
    | true =>
      obtain ⟨-, hmul⟩ := hiot rfl
      refine ⟨fun hw => ihw (hiow hw), ?_⟩
      rw [ihm]
      show (↑acc2 + (n1.allPoints : Multiset Pt)) = ↑(p :: acc2) + ↑q.root.allPoints
      rw [hmul]
      simp only [← Multiset.cons_coe, Multiset.cons_add, Multiset.add_cons]
    | false =>
      have hn1 : n1 = q.root := hiof rfl
      subst hn1
      refine ⟨fun hw => ihw (hiow hw), ?_⟩
      rw [ihm]
      rfl

/-- C1: for every sequence of samples inserted into the QuadTree (with
enough fuel for the source recursion to complete) and every query point,
nearest returns a stored accepted sample whose planar squared distance —
hence whose Euclidean distance, the square root being monotone — is
minimal among all accepted samples, and returns none exactly when no
sample was accepted.  The source returns the distance sqrt(d2) of the
returned best pair (p, d2), and d2 is exactly the squared distance of p. -/
theorem quadtree_nearest_minimal
    (xmin xmax ymin ymax : ℚ) (cap fuel : ℕ) (ps : List Pt) (qt : QuadTree) (accepted : List Pt)
    (h : QuadTree.insertList fuel (QuadTree.make xmin xmax ymin ymax cap) ps = some (qt, accepted))
    (x y : ℚ) :
    (QuadTree.nearest qt x y = none ↔ accepted = []) ∧
    (∀ p d2, QuadTree.nearest qt x y = some (p, d2) →
      p ∈ accepted ∧ d2 = dSq x y p ∧ (∀ q ∈ accepted, d2 ≤ dSq x y q) ∧
      (∀ q ∈ accepted, Real.sqrt (d2 : ℝ) ≤ Real.sqrt ((dSq x y q : ℝ)))) := by
  obtain ⟨hwf, hmul⟩ := quadtree_insertList_ok fuel ps _ qt accepted h
  have hwf' := hwf (quadtree_make_wf xmin xmax ymin ymax cap)
  have hroot : ((QuadTree.make xmin xmax ymin ymax cap).root.allPoints : List Pt) = [] := rfl
  rw [hroot] at hmul
  simp only [Multiset.coe_nil, add_zero] at hmul
  have hperm : qt.root.allPoints.Perm accepted := Multiset.coe_eq_coe.mp hmul
  have hbest := nearest_isBestOf x y qt.root hwf' [] none rfl
  simp only [List.nil_append] at hbest
  unfold QuadTree.nearest
  cases hn : Node.nearest x y qt.root none with
  | none =>
    rw [hn] at hbest
    refine ⟨⟨fun _ => ?_, fun _ => rfl⟩, fun p d2 hpd => absurd hpd (by simp)⟩
    have : qt.root.allPoints = [] := hbest
    rw [this] at hperm
    exact hperm.symm.eq_nil
  | some v =>
    obtain ⟨d2v, pv⟩ := v
    rw [hn] at hbest
    obtain ⟨hmemv, hdv, hminv⟩ := hbest
    refine ⟨⟨fun hcontr => absurd hcontr (by simp), fun hacc => ?_⟩, ?_⟩
    · subst hacc
      rw [hperm.eq_nil] at hmemv
      exact absurd hmemv (by simp)
    · intro p d2 hpd
      simp only [Option.some.injEq, Prod.mk.injEq] at hpd
      obtain ⟨rfl, rfl⟩ := hpd
      refine ⟨hperm.mem_iff.mp hmemv, hdv, fun qq hqq => hminv qq (hperm.mem_iff.mpr hqq),
        fun qq hqq => ?_⟩
      exact Real.sqrt_le_sqrt (by exact_mod_cast hminv qq (hperm.mem_iff.mpr hqq))

/-- Witness for C1: inserting two concrete samples succeeds, and nearest
at the origin returns the closer one with its squared distance, which is
no larger than the squared distance of the other sample. -/
theorem quadtree_nearest_minimal_witness :
    QuadTree.nearest ⟨Node.leaf 0 20 0 20 8 [⟨1, 1, 5⟩, ⟨10, 10, 7⟩]⟩ 0 0
      = some (⟨1, 1, 5⟩, 2) ∧ (2 : ℚ) ≤ dSq 0 0 ⟨10, 10, 7⟩ := by
  have h := quadtree_nearest_minimal 0 20 0 20 8 3 [⟨1, 1, 5⟩, ⟨10, 10, 7⟩]
    ⟨Node.leaf 0 20 0 20 8 [⟨1, 1, 5⟩, ⟨10, 10, 7⟩]⟩
    [⟨1, 1, 5⟩, ⟨10, 10, 7⟩] (by with_unfolding_all rfl) 0 0
  refine ⟨by with_unfolding_all rfl, ?_⟩
  exact (h.2 ⟨1, 1, 5⟩ 2 (by with_unfolding_all rfl)).2.2.1 ⟨10, 10, 7⟩ (by simp)

/-- C2 counterexample: with every attempt failing validation while
reporting the non-null bound 5, intersect_z returns none — not the
best-effort maximum (some 5) that the claim asserts. -/
theorem intersect_z_allfail_counterexample :
    intersect_z 1 (fun _ => (false, some 5)) = none ∧
    intersect_z 1 (fun _ => (false, some 5)) ≠ some 5 := by
  refine ⟨by with_unfolding_all rfl, ?_⟩
  intro hcontr
  rw [show intersect_z 1 (fun _ => (false, some 5)) = none by with_unfolding_all rfl] at hcontr
  exact Option.noConfusion hcontr

/-- Helper: if every attempt of a run list fails, the retry loop returns
none whatever bounds have accumulated. -/
theorem intersect_z_runs_allfail (att : RunParams → Bool × Option ℚ) :
    ∀ (rs : List RunParams) (zmaxs : List ℚ), (∀ r ∈ rs, (att r).1 = false) →
      intersect_z_runs att rs zmaxs = none := by
  intro rs
  induction rs with
  | nil => intro zmaxs _; rfl
  | cons r rs ih =>
    intro zmaxs hfail
    rw [intersect_z_runs]
    cases e : att r with
    | mk s z =>
      have hs : s = false := by
        have := hfail r (by simp)
        rw [e] at this
        exact this
      subst hs
      cases z with
      | none =>
        show intersect_z_runs att rs zmaxs = none
        exact ih _ (fun q hq => hfail q (List.mem_cons_of_mem r hq))
      | some zv =>
        show intersect_z_runs att rs (zmaxs ++ [zv]) = none
        exact ih _ (fun q hq => hfail q (List.mem_cons_of_mem r hq))

/-- C2 (amended): when all eight fallback strategies fail validation,
intersect_z returns none — even when attempts produced non-null Z bounds;
the maximum over the accumulated bounds is only returned when some
strategy succeeds. -/
theorem intersect_z_allfail_none (tool_radius : ℚ) (att : RunParams → Bool × Option ℚ)
    (hfail : ∀ r ∈ runs tool_radius 1000, (att r).1 = false) :
    intersect_z tool_radius att = none :=
  intersect_z_runs_allfail att (runs tool_radius 1000) [] hfail

/-- Witness for the amended C2 at a concrete attempt function. -/
theorem intersect_z_allfail_none_witness :
    intersect_z 2 (fun _ => (false, some 7)) = none :=
  intersect_z_allfail_none 2 (fun _ => (false, some 7)) (fun r _ => rfl)

/-- Helper: the retry loop stopping at the first validated success
returns the maximum of the accumulator extended with every non-null bound
produced up to and including the successful attempt. -/
theorem intersect_z_runs_split (att : RunParams → Bool × Option ℚ)
    (r : RunParams) (post : List RunParams) (hr : (att r).1 = true) :
    ∀ (pre : List RunParams) (zmaxs : List ℚ), (∀ q ∈ pre, (att q).1 = false) →
      intersect_z_runs att (pre ++ r :: post) zmaxs
        = (zmaxs ++ (pre ++ [r]).filterMap (fun q => (att q).2)).maximum? := by
  intro pre
  induction pre with
  | nil =>
    intro zmaxs _
    simp only [List.nil_append]
    rw [intersect_z_runs]
    cases e : att r with
    | mk s z =>
      have hs : s = true := by rw [e] at hr; exact hr
      subst hs
      cases z with
      | none =>
        show zmaxs.maximum? = (zmaxs ++ List.filterMap (fun q => (att q).2) [r]).maximum?
        simp [List.filterMap_cons, e]
      | some zv =>
        show (zmaxs ++ [zv]).maximum?
            = (zmaxs ++ List.filterMap (fun q => (att q).2) [r]).maximum?
        simp [List.filterMap_cons, e]
  | cons q pre ih =>
    intro zmaxs hfail
    simp only [List.cons_append]
    rw [intersect_z_runs]
    cases e : att q with
    | mk s z =>
      have hs : s = false := by
        have := hfail q (by simp)
        rw [e] at this
        exact this
      subst hs
      cases z with
      | none =>
        show intersect_z_runs att (pre ++ r :: post) zmaxs = _
        rw [ih _ (fun q' hq' => hfail q' (List.mem_cons_of_mem q hq'))]
        simp [List.filterMap_cons, e]
      | some zv =>
        show intersect_z_runs att (pre ++ r :: post) (zmaxs ++ [zv]) = _
        rw [ih _ (fun q' hq' => hfail q' (List.mem_cons_of_mem q hq'))]
        simp [List.filterMap_cons, e]

/-- C10: when the first validated success of intersect_z occurs at attempt
r (all earlier attempts failing validation), the returned Z is the maximum
of all non-null bounds produced by the attempts up to and including r —
including bounds of attempts rejected by validation — so the returned Z
can exceed the Z computed by the validated strategy itself. -/
theorem intersect_z_first_success_max (tool_radius : ℚ)
    (att : RunParams → Bool × Option ℚ) (pre post : List RunParams) (r : RunParams)
    (hsplit : runs tool_radius 1000 = pre ++ r :: post)
    (hpre : ∀ q ∈ pre, (att q).1 = false)
    (hr : (att r).1 = true) :
    intersect_z tool_radius att
      = ((pre ++ [r]).filterMap (fun q => (att q).2)).maximum? := by
  unfold intersect_z
  rw [hsplit]
  rw [intersect_z_runs_split att r post hr pre [] hpre]
  simp

/-- Witness for C10: the first attempt fails validation with bound 10, the
second (tool rotated 180 degrees) succeeds with bound 3; intersect_z
returns 10, which differs from the Z of the validated strategy. -/
theorem intersect_z_first_success_max_witness :
    intersect_z 1 (fun r => if r.rotate_z = some 180 then (true, some 3) else (false, some 10))
      = some 10 := by
  have h := intersect_z_first_success_max 1
    (fun r => if r.rotate_z = some 180 then (true, some 3) else (false, some 10))
    [⟨1, 1000, none, false, true, false, true⟩]
    [⟨1, 1000, some 45, false, true, false, true⟩,
     ⟨1, 1000, none, true, true, false, false⟩,
     ⟨1, 1000, some 180, true, true, false, false⟩,
     ⟨1, 1000, none, false, false, false, false⟩,
     ⟨1, 1000, none, false, true, true, false⟩,
     ⟨1, 1000, none, false, false, true, false⟩]
    ⟨1, 1000, some 180, false, true, false, true⟩
    (by with_unfolding_all rfl)
    (by
      intro q hq
      simp only [List.mem_singleton] at hq
      subst hq
      with_unfolding_all rfl)
    (by with_unfolding_all rfl)
  rw [h]
  with_unfolding_all rfl

/-- C3 counterexample: a raised exception of the section primitive in the
first fallback attempt propagates unchanged out of try_intersect_z,
intersect_z and get_surface_z — it is not converted to a none result. -/
theorem get_surface_z_exception_counterexample :
    get_surface_z 12 none
      (fun r => try_intersect_z (Except.error ()) r.radius r.rule_out_short_length) 1
      = Except.error () := by
  with_unfolding_all rfl

/-- C3 (amended): exceptions of the geometric intersection primitive are
not caught at the query boundary: they propagate out of try_intersect_z,
out of the intersect_z retry loop and out of get_surface_z on a cache
miss.  Geometric failure is converted to a none result only when it is
signalled by return values (invalid, null, extreme-bounds or short
sections); the only handler in get_surface_z guards the cache-insertion
step. -/
theorem get_surface_z_exception_propagates {ε : Type} (e : ε) (tol tool_radius : ℚ) :
    try_intersect_z (Except.error e) tool_radius true = Except.error e ∧
    get_surface_z tol none (fun r => try_intersect_z (Except.error e) r.radius
      r.rule_out_short_length) tool_radius = Except.error e :=
  ⟨rfl, rfl⟩

/-- C4 counterexample: a straight move carrying explicit X, Y and Z whose
geometric edge cannot be built (edgeForCmd returns none) produces NO
tagged segment at all — the discretizer drops the command — and
consequently the projection stage emits no command for it: the command
does not pass through to the output as the claim asserts. -/
theorem discretize_drop_counterexample :
    discretize_commands (fun _ _ => (none : Option Unit)) (fun _ _ => []) (fun _ _ => [])
      (1 / 1000000) [⟨"G1", some 1, some 2, some 3, none⟩] ⟨0, 0, 0⟩ 10 12 1 (1 / 10)
      = [] ∧
    projectSegments (fun _ _ => none) 0 10 0
      (discretize_commands (fun _ _ => (none : Option Unit)) (fun _ _ => []) (fun _ _ => [])
        (1 / 1000000) [⟨"G1", some 1, some 2, some 3, none⟩] ⟨0, 0, 0⟩ 10 12 1 (1 / 10))
      = [] := by
  constructor <;> with_unfolding_all rfl

/-- C4 (amended): a motion command whose geometric edge cannot be built is
dropped by the discretizer — no TaggedSegment (in particular none with an
empty point list) is emitted for it and it disappears from the output
program; segments that do carry an empty point list are passed through
the projection stage as the original raw command unchanged (with a
warning when they have explicit XYZ). -/
theorem discretize_dropped_and_passthrough {Edge : Type}
    (edgeForCmd : Command → Pt → Option Edge) (dDefl dDist : Edge → ℚ → List Pt)
    (eps sampleD curveD : ℚ) (st : List TaggedSegment × Pt) (c : Command)
    (surfZ : ℚ → ℚ → Option ℚ) (stockZMax safe_height z_min : ℚ)
    (seg : TaggedSegment) (rest : List TaggedSegment)
    (hmot : is_motion c = true) (hedge : edgeForCmd c st.2 = none)
    (hempty : seg.pointlist = []) :
    (discretizeStep edgeForCmd dDefl dDist eps sampleD curveD st c).1 = st.1 ∧
    projectSegments surfZ stockZMax safe_height z_min (seg :: rest)
      = seg.command :: projectSegments surfZ stockZMax safe_height z_min rest := by
  constructor
  · simp [discretizeStep, hmot, hedge]
  · obtain ⟨k, cmd, pl⟩ := seg
    simp only [TaggedSegment.pointlist] at hempty
    subst hempty
    cases k <;> simp [projectSegments]

/-- Witness for the amended C4: dropping a concrete unbuildable G1 move,
and passing a concrete non-motion command through unchanged. -/
theorem discretize_dropped_and_passthrough_witness :
    (discretizeStep (fun _ _ => (none : Option Unit)) (fun _ _ => []) (fun _ _ => [])
        (1 / 1000000) 1 (1 / 10) ([], ⟨0, 0, 0⟩) ⟨"G1", some 1, some 2, some 3, none⟩).1
      = ([] : List TaggedSegment) ∧
    projectSegments (fun _ _ => none) 0 10 0
        [⟨SegmentKind.OTHER, ⟨"M6", none, none, none, none⟩, []⟩]
      = (⟨"M6", none, none, none, none⟩ : Command)
          :: projectSegments (fun _ _ => none) 0 10 0 [] :=
  discretize_dropped_and_passthrough (fun _ _ => (none : Option Unit))
    (fun _ _ => []) (fun _ _ => []) (1 / 1000000) 1 (1 / 10) ([], ⟨0, 0, 0⟩)
    ⟨"G1", some 1, some 2, some 3, none⟩ (fun _ _ => none) 0 10 0
    ⟨SegmentKind.OTHER, ⟨"M6", none, none, none, none⟩, []⟩ []
    (by with_unfolding_all rfl) rfl rfl

/-- C7: for every processed sampled point, the Z emitted by the projection
stage equals min(resolved_height + (point.z - z_baseline), safe_height)
and in particular never exceeds safe_height. -/
theorem projected_z_le_safe_height (surfZ : ℚ → ℚ → Option ℚ)
    (stockZMax safe_height z_min : ℚ) (kind : SegmentKind) (point : Pt) :
    ∃ v, (projectPoint surfZ stockZMax safe_height z_min kind point).z = some v ∧
      v = min (resolvedHeight surfZ stockZMax safe_height kind point + (point.z - z_min))
        safe_height ∧
      v ≤ safe_height := by
  unfold projectPoint
  refine ⟨_, rfl, ?_, ?_⟩
  · by_cases h : resolvedHeight surfZ stockZMax safe_height kind point + (point.z - z_min)
        > safe_height
    · rw [if_pos h, min_eq_right (le_of_lt h)]
    · rw [if_neg h, min_eq_left (le_of_not_lt h)]
  · by_cases h : resolvedHeight surfZ stockZMax safe_height kind point + (point.z - z_min)
        > safe_height
    · rw [if_pos h]
    · rw [if_neg h]; exact le_of_not_lt h

/-- C8: the source classifier at the failing input.  A G1 move carrying an
explicit Z equal to 0.0 while the tracked position is at Z = 5 is NOT
classified on-plane: the Python truthiness test of line 806 treats the
explicit 0.0 as absent and falls back to the tracked Z, so is_on_plane is
false and the discretizer tags the segment IS_HIGH — although the
docstring (True if z==0) and the spec say a move whose Z is zero is
classified on-plane regardless of the tracked position. -/
theorem is_on_plane_explicit_zero_bug :
    is_on_plane (1 / 1000000) ⟨"G1", some 2, some 2, some 0, none⟩ ⟨0, 0, 5⟩ = false ∧
    (discretize_commands (fun _ _ => (some () : Option Unit)) (fun _ _ => [])
      (fun _ _ => [⟨2, 2, 0⟩]) (1 / 1000000) [⟨"G1", some 2, some 2, some 0, none⟩]
      ⟨0, 0, 5⟩ 10 12 1 (1 / 10)).map TaggedSegment.kind = [SegmentKind.IS_HIGH] := by
  constructor <;> with_unfolding_all rfl

/-- C5 counterexample: a descending move whose dz lies inside the
isRoughly tolerance deadzone (here tolerance 1e-6, dz = -5e-7) is treated
as pure horizontal and receives the full horizontal feed; its vertical
feed component F |dz| / dist then exceeds vertical_feed = 1 by far more
than 1e-6. -/
theorem feedrate_cap_counterexample :
    ((⟨1, 0, -(1 / 2000000)⟩ : Vector3).z - (⟨0, 0, 0⟩ : Vector3).z < 0) ∧
    interpolate_feedrate (1 / 1000000) ⟨0, 0, 0⟩ ⟨1, 0, -(1 / 2000000)⟩ (10 ^ 10) 1
      * |(⟨1, 0, -(1 / 2000000)⟩ : Vector3).z - (⟨0, 0, 0⟩ : Vector3).z|
      / dist3 ⟨0, 0, 0⟩ ⟨1, 0, -(1 / 2000000)⟩
      > 1 + 1 / 1000000 := by
  have harg : dist3 (⟨0, 0, 0⟩ : Vector3) ⟨1, 0, -(1 / 2000000)⟩
      = Real.sqrt (1 + 1 / 4000000000000) := by
    show Real.sqrt ((1 - 0) * (1 - 0) + (0 - 0) * (0 - 0)
      + (-(1 / 2000000) - 0) * (-(1 / 2000000) - 0)) = _
    norm_num
  have hxy1 : dist_xy (⟨0, 0, 0⟩ : Vector3) ⟨1, 0, -(1 / 2000000)⟩ = 1 := by
    show Real.sqrt ((1 - 0) * (1 - 0) + (0 - 0) * (0 - 0)) = 1
    norm_num
  have hd2 : Real.sqrt (1 + 1 / 4000000000000) ^ 2 = 1 + 1 / 4000000000000 :=
    Real.sq_sqrt (by norm_num)
  have hd0 : (0 : ℝ) ≤ Real.sqrt (1 + 1 / 4000000000000) := Real.sqrt_nonneg _
  have h1d : (1 : ℝ) ≤ Real.sqrt (1 + 1 / 4000000000000) := by nlinarith
  have hdle : Real.sqrt (1 + 1 / 4000000000000) ≤ 2 := by nlinarith
  constructor
  · norm_num
  · unfold interpolate_feedrate
    rw [harg, hxy1]
    rw [if_pos (by rw [sub_zero, abs_of_nonneg hd0]; intro hcontr; nlinarith)]
    rw [if_neg (by norm_num)]
    rw [if_pos (by
      show |(-(1 / 2000000) - (0:ℝ)) - 0| ≤ 1 / 1000000
      rw [show ((-(1 / 2000000) - (0:ℝ)) - 0) = -(1 / 2000000) by norm_num, abs_neg,
        abs_of_nonneg (by norm_num : (0:ℝ) ≤ 1 / 2000000)]
      norm_num)]
    show (1 : ℝ) + 1 / 1000000 < 10 ^ 10 * |(-(1 / 2000000) - (0:ℝ))|
      / Real.sqrt (1 + 1 / 4000000000000)
    rw [show |(-(1 / 2000000) - (0:ℝ))| = 1 / 2000000 by
      rw [show (-(1 / 2000000) - (0:ℝ)) = -(1 / 2000000) by norm_num, abs_neg,
        abs_of_nonneg (by norm_num : (0:ℝ) ≤ 1 / 2000000)]]
    rw [lt_div_iff (by nlinarith)]
    nlinarith

/-- C5 (amended): on moves outside the isRoughly tolerance deadzones (the
total length, the planar length and |dz| each exceed the tolerance), the
horizontal feed component F * dist_xy / dist never exceeds
horizontal_feed; and on such descending moves the returned feed equals
min(h_feed * dist / dist_xy, v_feed * dist / |dz|), whose vertical
component F * |dz| / dist never exceeds vertical_feed (exactly, hence
within 1e-6).  Inside the deadzones the caps can be violated, as the
counterexample shows. -/
theorem interpolate_feedrate_caps (eps : ℝ) (p0 p1 : Vector3) (hf vf : ℝ)
    (hhf : 0 < hf) (hvf : 0 < vf) (heps : 0 ≤ eps)
    (hd : eps < dist3 p0 p1) (hxy : eps < dist_xy p0 p1)
    (hdz : eps < |p1.z - p0.z|) :
    interpolate_feedrate eps p0 p1 hf vf * dist_xy p0 p1 / dist3 p0 p1 ≤ hf ∧
    (p1.z - p0.z < 0 →
      interpolate_feedrate eps p0 p1 hf vf
        = min (hf * dist3 p0 p1 / dist_xy p0 p1) (vf * dist3 p0 p1 / |p1.z - p0.z|) ∧
      interpolate_feedrate eps p0 p1 hf vf * |p1.z - p0.z| / dist3 p0 p1 ≤ vf) := by
  have hd0 : 0 < dist3 p0 p1 := lt_of_le_of_lt heps hd
  have hxy0 : 0 < dist_xy p0 p1 := lt_of_le_of_lt heps hxy
  have hdz0 : 0 < |p1.z - p0.z| := lt_of_le_of_lt heps hdz
  have hdne : dist3 p0 p1 ≠ 0 := ne_of_gt hd0
  have hxyne : dist_xy p0 p1 ≠ 0 := ne_of_gt hxy0
  have hdzne : |p1.z - p0.z| ≠ 0 := ne_of_gt hdz0
  have hc1 : ¬ (|dist3 p0 p1 - 0| ≤ eps) := by
    rw [sub_zero, abs_of_pos hd0]
    exact not_le.mpr hd
  have hc2 : ¬ (|dist_xy p0 p1 - 0| ≤ eps) := by
    rw [sub_zero, abs_of_pos hxy0]
    exact not_le.mpr hxy
  have hc3 : ¬ (|(p1.z - p0.z) - 0| ≤ eps) := by
    rw [sub_zero]
    exact not_le.mpr hdz
  unfold interpolate_feedrate
  rw [if_pos hc1, if_neg hc2, if_neg hc3]
  rcases lt_trichotomy (p1.z - p0.z) 0 with hneg | h0 | hpos
  · rw [if_neg (by linarith : ¬ p1.z - p0.z > 0)]
    constructor
    · calc min (hf * dist3 p0 p1 / dist_xy p0 p1) (vf * dist3 p0 p1 / |p1.z - p0.z|)
            * dist_xy p0 p1 / dist3 p0 p1
          ≤ (hf * dist3 p0 p1 / dist_xy p0 p1) * dist_xy p0 p1 / dist3 p0 p1 :=
            (div_le_div_right hd0).mpr
              (mul_le_mul_of_nonneg_right (min_le_left _ _) (le_of_lt hxy0))
        _ = hf := by field_simp
    · intro _
      refine ⟨rfl, ?_⟩
      calc min (hf * dist3 p0 p1 / dist_xy p0 p1) (vf * dist3 p0 p1 / |p1.z - p0.z|)
            * |p1.z - p0.z| / dist3 p0 p1
          ≤ (vf * dist3 p0 p1 / |p1.z - p0.z|) * |p1.z - p0.z| / dist3 p0 p1 :=
            (div_le_div_right hd0).mpr
              (mul_le_mul_of_nonneg_right (min_le_right _ _) (abs_nonneg _))
        _ = vf := by field_simp
  · rw [h0, abs_zero] at hdz0
    exact absurd hdz0 (lt_irrefl 0)
  · rw [if_pos hpos]
    constructor
    · have : hf * dist3 p0 p1 / dist_xy p0 p1 * dist_xy p0 p1 / dist3 p0 p1 = hf := by
        field_simp
      rw [this]
    · intro h
      linarith

/-- Witness for the amended C5 on the concrete descending diagonal move
(0,0,0) to (3,4,-12) with horizontal feed 100 and vertical feed 50:
dist = 13, dist_xy = 5, |dz| = 12. -/
theorem interpolate_feedrate_caps_witness :
    interpolate_feedrate (1 / 1000000) ⟨0, 0, 0⟩ ⟨3, 4, -12⟩ 100 50
        * dist_xy ⟨0, 0, 0⟩ ⟨3, 4, -12⟩ / dist3 ⟨0, 0, 0⟩ ⟨3, 4, -12⟩ ≤ 100 ∧
    ((⟨3, 4, -12⟩ : Vector3).z - (⟨0, 0, 0⟩ : Vector3).z < 0 →
      interpolate_feedrate (1 / 1000000) ⟨0, 0, 0⟩ ⟨3, 4, -12⟩ 100 50
        = min (100 * dist3 ⟨0, 0, 0⟩ ⟨3, 4, -12⟩ / dist_xy ⟨0, 0, 0⟩ ⟨3, 4, -12⟩)
            (50 * dist3 ⟨0, 0, 0⟩ ⟨3, 4, -12⟩
              / |(⟨3, 4, -12⟩ : Vector3).z - (⟨0, 0, 0⟩ : Vector3).z|) ∧
      interpolate_feedrate (1 / 1000000) ⟨0, 0, 0⟩ ⟨3, 4, -12⟩ 100 50
        * |(⟨3, 4, -12⟩ : Vector3).z - (⟨0, 0, 0⟩ : Vector3).z|
        / dist3 ⟨0, 0, 0⟩ ⟨3, 4, -12⟩ ≤ 50) := by
  have hd13 : dist3 (⟨0, 0, 0⟩ : Vector3) ⟨3, 4, -12⟩ = 13 := by
    show Real.sqrt ((3 - 0) * (3 - 0) + (4 - 0) * (4 - 0) + (-12 - 0) * (-12 - 0)) = 13
    rw [show ((3 - 0) * (3 - 0) + (4 - 0) * (4 - 0) + (-12 - 0) * (-12 - 0) : ℝ)
      = 13 ^ 2 by norm_num]
    exact Real.sqrt_sq (by norm_num)
  have hxy5 : dist_xy (⟨0, 0, 0⟩ : Vector3) ⟨3, 4, -12⟩ = 5 := by
    show Real.sqrt ((3 - 0) * (3 - 0) + (4 - 0) * (4 - 0)) = 5
    rw [show ((3 - 0) * (3 - 0) + (4 - 0) * (4 - 0) : ℝ) = 5 ^ 2 by norm_num]
    exact Real.sqrt_sq (by norm_num)
  refine interpolate_feedrate_caps (1 / 1000000) ⟨0, 0, 0⟩ ⟨3, 4, -12⟩ 100 50
    (by norm_num) (by norm_num) (by norm_num) ?_ ?_ ?_
  · rw [hd13]; norm_num
  · rw [hxy5]; norm_num
  · show (1 / 1000000 : ℝ) < |(-12 : ℝ) - 0|
    norm_num

/-- A z at least limit - eps is never strictly lower than limit in the
isLower sense. -/
theorem isLower_false_of_ge (eps z limit : ℚ) (h : limit - eps ≤ z) :
    isLower eps (some z) (some limit) = false := by
  show (if isRoughly eps z limit then false else decide (z < limit)) = false
  split_ifs with h1
  · rfl
  · simp only [decide_eq_false_iff_not, not_lt]
    by_contra hlt
    push_neg at hlt
    apply h1
    show decide (|z - limit| ≤ eps) = true
    simp only [decide_eq_true_eq]
    rw [abs_of_nonpos (by linarith)]
    linarith

/-- The repeat flag contributed by one command of a stepdown pass: true
exactly when the command is not skipped and its Z is below the limit. -/
theorem stepCmd_rep (eps rapid_margin step_depth h_rapid : ℚ) (feedFn : Pt → Pt → ℚ)
    (rtc : Bool) (limit clearance safe : ℚ) (skipZ : Bool) (prev : Pt)
    (st : StepState) (c : Command) :
    (stepCmd eps rapid_margin step_depth h_rapid feedFn rtc limit clearance safe
      skipZ prev st c).rep
    = (st.rep || (!skipCmd clearance safe skipZ c && isLower eps c.z (some limit))) := by
  cases hsk : skipCmd clearance safe skipZ c with
  | true => simp [stepCmd, hsk]
  | false =>
    cases hz : c.z with
    | none => simp [stepCmd, hsk, hz, isLower, apply_ite StepState.rep]
    | some zv => simp [stepCmd, hsk, hz, apply_ite StepState.rep, Bool.or_assoc]

/-- Folding a stepdown pass over a command list ors the per-command
repeat contributions onto the initial flag. -/
theorem foldl_stepCmd_rep (eps rapid_margin step_depth h_rapid : ℚ)
    (feedFn : Pt → Pt → ℚ) (rtc : Bool) (limit clearance safe : ℚ)
    (skipZ : Bool) (prev : Pt) (cmds : List Command) :
    ∀ st : StepState,
      (cmds.foldl (stepCmd eps rapid_margin step_depth h_rapid feedFn rtc
        limit clearance safe skipZ prev) st).rep
      = (st.rep || cmds.any (fun c =>
          !skipCmd clearance safe skipZ c && isLower eps c.z (some limit))) := by
  induction cmds with
  | nil => intro st; simp
  | cons c cs ih =>
    intro st
    rw [List.foldl_cons, ih, stepCmd_rep]
    simp [Bool.or_assoc]

/-- The repeat flag of a whole stepdown pass. -/
theorem runPass_rep (eps rapid_margin step_depth h_rapid : ℚ) (feedFn : Pt → Pt → ℚ)
    (rtc : Bool) (clearance safe : ℚ) (pathCmds : List Command) (startPoint : Pt)
    (acc : List Command) (limit : ℚ) (skipZ : Bool) :
    (runPass eps rapid_margin step_depth h_rapid feedFn rtc clearance safe
      pathCmds startPoint acc limit skipZ).2
    = pathCmds.any (fun c => !skipCmd clearance safe skipZ c
        && isLower eps c.z (some limit)) := by
  simp only [runPass]
  rw [foldl_stepCmd_rep]
  simp

/-- Fuel sufficiency for the stepdown loop: once the limit has sunk far
enough below every Z of the path, no pass sets the repeat flag, so the
loop returns within the fuel. -/
theorem stepdownLoop_isSome (eps rapid_margin step_depth h_rapid : ℚ)
    (feedFn : Pt → Pt → ℚ) (rtc : Bool) (clearance safe : ℚ)
    (pathCmds : List Command) (startPoint : Pt) (closed : Bool) (zmin : ℚ)
    (hzmin : ∀ z ∈ pathCmds.filterMap Command.z, zmin ≤ z) :
    ∀ (fuel : ℕ) (limit : ℚ), 1 ≤ fuel →
      limit - (fuel : ℚ) * step_depth - eps ≤ zmin → 0 < step_depth →
      ∀ (acc : List Command) (firstStep : Bool),
        ∃ out, stepdownLoop eps rapid_margin step_depth h_rapid feedFn rtc
          clearance safe pathCmds startPoint closed fuel acc limit firstStep
          = some out := by
  intro fuel
  induction fuel with
  | zero =>
    intro limit h1 _ _ _ _
    exact absurd h1 (by omega)
  | succ n ih =>
    intro limit _ hbound hstep acc firstStep
    have hrep : ∀ limit' : ℚ, limit' - eps ≤ zmin → ∀ sk : Bool,
        pathCmds.any (fun c => !skipCmd clearance safe sk c
          && isLower eps c.z (some limit')) = false := by
      intro limit' hl sk
      rw [List.any_eq_false]
      intro c hc
      cases hcz : c.z with
      | none => simp [isLower, hcz]
      | some zv =>
        have hz : zmin ≤ zv := hzmin zv (List.mem_filterMap.mpr ⟨c, hc, hcz⟩)
        rw [isLower_false_of_ge eps zv limit' (by linarith)]
        simp
    rcases hrp : runPass eps rapid_margin step_depth h_rapid feedFn rtc clearance safe
      pathCmds startPoint acc (limit - step_depth) (!firstStep && closed) with ⟨acc', rep⟩
    have hmatch : stepdownLoop eps rapid_margin step_depth h_rapid feedFn rtc
        clearance safe pathCmds startPoint closed (n + 1) acc limit firstStep
        = if rep then
            stepdownLoop eps rapid_margin step_depth h_rapid feedFn rtc
              clearance safe pathCmds startPoint closed n acc' (limit - step_depth) false
          else some acc' := by
      rw [stepdownLoop, hrp]
    cases rep with
    | false => exact ⟨acc', by rw [hmatch]; rfl⟩
    | true =>
      rcases n with _ | m
      · exfalso
        have h2 : (runPass eps rapid_margin step_depth h_rapid feedFn rtc clearance safe
            pathCmds startPoint acc (limit - step_depth) (!firstStep && closed)).2
            = pathCmds.any (fun c => !skipCmd clearance safe (!firstStep && closed) c
                && isLower eps c.z (some (limit - step_depth))) :=
          runPass_rep _ _ _ _ _ _ _ _ _ _ _ _ _
        rw [hrp] at h2
        have h3 : true = pathCmds.any (fun c =>
            !skipCmd clearance safe (!firstStep && closed) c
            && isLower eps c.z (some (limit - step_depth))) := h2
        rw [hrep (limit - step_depth) (by push_cast at hbound; linarith)
          (!firstStep && closed)] at h3
        exact Bool.noConfusion h3
      · obtain ⟨out, hout⟩ := ih (limit - step_depth) (by omega)
          (by push_cast at hbound ⊢; linarith) hstep acc' false
        exact ⟨out, by rw [hmatch]; exact hout⟩

/-- Whenever the stepdown loop finishes within its fuel, there is a final
pass number k at whose depth limit no command of the path requires
clamping any more. -/
theorem stepdownLoop_final_pass (eps rapid_margin step_depth h_rapid : ℚ)
    (feedFn : Pt → Pt → ℚ) (rtc : Bool) (clearance safe : ℚ)
    (pathCmds : List Command) (startPoint : Pt) (closed : Bool) :
    ∀ (fuel : ℕ) (acc : List Command) (limit : ℚ) (firstStep : Bool)
      (out : List Command),
      stepdownLoop eps rapid_margin step_depth h_rapid feedFn rtc clearance safe
        pathCmds startPoint closed fuel acc limit firstStep = some out →
      ∃ (k : ℕ) (limitF : ℚ) (skF : Bool),
        1 ≤ k ∧ k ≤ fuel ∧ limitF = limit - (k : ℚ) * step_depth ∧
        (k = 1 → skF = (!firstStep && closed)) ∧
        (k ≠ 1 → skF = closed) ∧
        pathCmds.any (fun c => !skipCmd clearance safe skF c
          && isLower eps c.z (some limitF)) = false := by
  intro fuel
  induction fuel with
  | zero =>
    intro acc limit fs out h
    exact absurd h (by rw [stepdownLoop]; exact Option.noConfusion)
  | succ n ih =>
    intro acc limit fs out h
    rcases hrp : runPass eps rapid_margin step_depth h_rapid feedFn rtc clearance safe
      pathCmds startPoint acc (limit - step_depth) (!fs && closed) with ⟨acc', rep⟩
    have hmatch : stepdownLoop eps rapid_margin step_depth h_rapid feedFn rtc
        clearance safe pathCmds startPoint closed (n + 1) acc limit fs
        = if rep then
            stepdownLoop eps rapid_margin step_depth h_rapid feedFn rtc
              clearance safe pathCmds startPoint closed n acc' (limit - step_depth) false
          else some acc' := by
      rw [stepdownLoop, hrp]
    rw [hmatch] at h
    cases rep with
    | false =>
      refine ⟨1, limit - step_depth, !fs && closed, le_refl 1, by omega,
        by push_cast; ring, fun _ => rfl, fun hk => absurd rfl hk, ?_⟩
      have h2 : (runPass eps rapid_margin step_depth h_rapid feedFn rtc clearance safe
          pathCmds startPoint acc (limit - step_depth) (!fs && closed)).2
          = pathCmds.any (fun c => !skipCmd clearance safe (!fs && closed) c
              && isLower eps c.z (some (limit - step_depth))) :=
        runPass_rep _ _ _ _ _ _ _ _ _ _ _ _ _
      rw [hrp] at h2
      have h3 : false = pathCmds.any (fun c =>
          !skipCmd clearance safe (!fs && closed) c
          && isLower eps c.z (some (limit - step_depth))) := h2
      exact h3.symm
    | true =>
      obtain ⟨k, lF, sF, hk1, hk2, hlF, hs1, hs2, hany⟩ :=
        ih acc' (limit - step_depth) false out h
      refine ⟨k + 1, lF, sF, by omega, by omega, ?_, ?_, ?_, hany⟩
      · rw [hlF]; push_cast; ring
      · intro hk; exact absurd hk (by omega)
      · intro _
        by_cases hk : k = 1
        · rw [hs1 hk]; simp
        · exact hs2 hk

/-- C6 counterexample (closed): the claimed pass bound
ceil(|start_depth| / step_depth) + 1 evaluates to 1 for start_depth 0 and
step_depth 1, yet on a path plunging to Z = -10 the stepdown loop is not
finished after 1 pass: with that much fuel process_stepdown runs out and
returns none, because the number of passes is governed by the distance
from start_depth down to the path minimum Z, not by |start_depth|. -/
theorem stepdown_bound_counterexample :
    (⌈|(0 : ℚ)| / 1⌉₊ + 1 = 1) ∧
    process_stepdown 1 (1 / 1000000) (fun _ _ => 0)
      [⟨"G1", some 0, some 0, some (-10), none⟩] 1 0 5 6 100 true = none := by
  constructor
  · norm_num
  · with_unfolding_all rfl

/-- C6 (amended): for every path whose start point is determined and
every positive step_depth, process_stepdown terminates within
ceil((start_depth - zmin) / step_depth) + 1 passes, where zmin bounds the
explicit Z words of the path from below; and there is a final pass k
within that bound at whose depth limit start_depth - k * step_depth no
non-skipped command's Z requires clamping (every Z is at or roughly at
the reached floor). -/
theorem process_stepdown_terminates (eps : ℚ) (feedFn : Pt → Pt → ℚ)
    (path : List Command)
    (step_depth start_depth clearance_height safe_height h_rapid : ℚ)
    (rtc : Bool) (sp : Pt) (zmin : ℚ)
    (hstep : 0 < step_depth)
    (heps : 0 ≤ eps)
    (hsp : getPoint path = some sp)
    (hzmin : ∀ z ∈ path.filterMap Command.z, zmin ≤ z) :
    ∃ out, process_stepdown (⌈(start_depth - zmin) / step_depth⌉₊ + 1) eps feedFn
        path step_depth start_depth clearance_height safe_height h_rapid rtc
        = some out ∧
      ∃ (k : ℕ) (limitF : ℚ) (skF : Bool),
        1 ≤ k ∧ k ≤ ⌈(start_depth - zmin) / step_depth⌉₊ + 1 ∧
        limitF = start_depth - (k : ℚ) * step_depth ∧
        (k = 1 → skF = false) ∧
        (k ≠ 1 → skF = isClosedPath eps (some sp) (getPoint path.reverse)) ∧
        path.any (fun c => !skipCmd clearance_height safe_height skF c
          && isLower eps c.z (some limitF)) = false := by
  have h1 : (start_depth - zmin) / step_depth
      ≤ ((⌈(start_depth - zmin) / step_depth⌉₊ : ℕ) : ℚ) := Nat.le_ceil _
  have h2 : start_depth - zmin
      ≤ ((⌈(start_depth - zmin) / step_depth⌉₊ : ℕ) : ℚ) * step_depth := by
    have h3 := mul_le_mul_of_nonneg_right h1 (le_of_lt hstep)
    rwa [div_mul_cancel₀ _ (ne_of_gt hstep)] at h3
  have hbound : start_depth
      - ((⌈(start_depth - zmin) / step_depth⌉₊ + 1 : ℕ) : ℚ) * step_depth - eps
      ≤ zmin := by
    push_cast
    nlinarith [h2, hstep, heps]
  obtain ⟨out, hout⟩ := stepdownLoop_isSome eps (1 / 2) step_depth h_rapid feedFn rtc
    clearance_height safe_height path sp
    (isClosedPath eps (some sp) (getPoint path.reverse)) zmin hzmin
    (⌈(start_depth - zmin) / step_depth⌉₊ + 1) start_depth (by omega) hbound hstep
    [] true
  obtain ⟨k, lF, sF, hk1, hk2, hlF, hs1, hs2, hany⟩ :=
    stepdownLoop_final_pass eps (1 / 2) step_depth h_rapid feedFn rtc
      clearance_height safe_height path sp
      (isClosedPath eps (some sp) (getPoint path.reverse))
      (⌈(start_depth - zmin) / step_depth⌉₊ + 1) [] start_depth true out hout
  refine ⟨out, ?_, k, lF, sF, hk1, hk2, hlF, ?_, hs2, hany⟩
  · show (match getPoint path with
      | none => none
      | some startPoint =>
        stepdownLoop eps (1 / 2) step_depth h_rapid feedFn rtc
          clearance_height safe_height path startPoint
          (isClosedPath eps (some startPoint) (getPoint path.reverse))
          (⌈(start_depth - zmin) / step_depth⌉₊ + 1) [] start_depth true)
      = some out
    rw [hsp]
    exact hout
  · intro hk
    rw [hs1 hk]
    simp

/-- Witness for C6 at a concrete instance: a single plunge to Z = -2 from
start_depth 0 with step 1 terminates within ceil((0 - (-2)) / 1) + 1 = 3
passes. -/
theorem process_stepdown_terminates_witness :
    (process_stepdown (⌈((0 : ℚ) - (-2)) / 1⌉₊ + 1) (1 / 1000000) (fun _ _ => 0)
      [⟨"G1", some 0, some 0, some (-2), none⟩] 1 0 5 6 100 true).isSome = true := by
  obtain ⟨out, hout, -⟩ := process_stepdown_terminates (1 / 1000000) (fun _ _ => 0)
    [⟨"G1", some 0, some 0, some (-2), none⟩] 1 0 5 6 100 true ⟨0, 0, -2⟩ (-2)
    (by norm_num) (by norm_num) (by with_unfolding_all rfl)
    (by
      intro z hz
      have hz2 : z = (-2 : ℚ) := by simpa using hz
      rw [hz2])
  rw [hout]
  rfl

/-- C9 counterexample (closed): precondition failures after the
tool-shape check do mutate cache state.  First conjunct: with an endmill,
no collected faces, and a changed state hash, the run aborts with the
no-faces error, yet the persistent point cache has been emptied, the
runtime quadtree dropped, and the stored hash overwritten.  Second
conjunct: with a missing base path the run aborts with the bad-base
error and the output path is set to an empty path, not left unchanged or
reverted to the original un-projected path. -/
theorem opExecute_abort_mutates_counterexample :
    (opExecute_preamble "endmill" [] "h2" none [⟨"G0", none, none, some 5, none⟩]
        ⟨[⟨1, 2, 3⟩], some [⟨1, 2, 3⟩], false, "h1", [⟨"G1", some 0, none, none, none⟩]⟩
      = (PreambleResult.abortNoFaces,
         ⟨[], none, false, "h2", [⟨"G0", none, none, some 5, none⟩]⟩)) ∧
    (opExecute_preamble "endmill" ["f"] "h1" none [⟨"G0", none, none, some 5, none⟩]
        ⟨[⟨1, 2, 3⟩], some [⟨1, 2, 3⟩], false, "h1", [⟨"G1", some 0, none, none, none⟩]⟩
      = (PreambleResult.abortBadBase,
         ⟨[⟨1, 2, 3⟩], some [⟨1, 2, 3⟩], false, "h1", []⟩)) := by
  constructor
  · with_unfolding_all rfl
  · with_unfolding_all rfl

/-- C9 (amended): the tool-shape precondition aborts with the whole
state untouched; the other two precondition failures (no faces, bad
base) abort after the hash bookkeeping, so on such runs the point cache
and runtime quadtree are either left unchanged or cleared wholesale —
cleared exactly when the state hash changed and invalidation is not
blocked — and the stored hash is overwritten with the current one; the
output path reverts to the placed original base path on the no-faces
abort but is set to an empty path on the bad-base abort.  On no abort
path does any cache insertion happen: the final cache is always the
initial one or empty. -/
theorem opExecute_abort_cache_policy (toolShapeId : String) (faces : List String)
    (currentHash : String) (basePath : Option (List Command))
    (originalBase : List Command) (st : ObjState) (res : PreambleResult)
    (st' : ObjState)
    (h : opExecute_preamble toolShapeId faces currentHash basePath originalBase st
      = (res, st')) :
    (res = PreambleResult.abortToolShape → st' = st) ∧
    (res ≠ PreambleResult.abortToolShape →
      st'.pointCache
        = (if currentHash ≠ st.cacheStateHash ∧ st.blockCacheInvalidation = false
           then [] else st.pointCache) ∧
      st'.runtimeQuadtree
        = (if currentHash ≠ st.cacheStateHash ∧ st.blockCacheInvalidation = false
           then none else st.runtimeQuadtree)) ∧
    (res ≠ PreambleResult.abortToolShape → st'.cacheStateHash = currentHash) ∧
    (res = PreambleResult.abortNoFaces → st'.path = originalBase) ∧
    (res = PreambleResult.abortBadBase → st'.path = []) ∧
    (st'.pointCache = st.pointCache ∨ st'.pointCache = []) := by
  simp only [opExecute_preamble, clear_cache] at h
  split_ifs at h <;>
    (rw [Prod.mk.injEq] at h
     obtain ⟨hres, hst⟩ := h
     subst hres
     subst hst) <;>
    refine ⟨?_, ?_, ?_, ?_, ?_, ?_⟩ <;>
    simp_all

/-- Witness for C9 at a concrete input: a run that proceeds past all
three precondition checks has its stored hash overwritten with the
current one. -/
theorem opExecute_abort_cache_policy_witness :
    (opExecute_preamble "endmill" ["f"] "h2" (some [⟨"G1", none, none, none, none⟩])
      [] ⟨[], none, false, "h1", []⟩).2.cacheStateHash = "h2" := by
  have h := opExecute_abort_cache_policy "endmill" ["f"] "h2"
    (some [⟨"G1", none, none, none, none⟩]) [] ⟨[], none, false, "h1", []⟩
    (opExecute_preamble "endmill" ["f"] "h2" (some [⟨"G1", none, none, none, none⟩])
      [] ⟨[], none, false, "h1", []⟩).1
    (opExecute_preamble "endmill" ["f"] "h2" (some [⟨"G1", none, none, none, none⟩])
      [] ⟨[], none, false, "h1", []⟩).2
    rfl
  have h1 : (opExecute_preamble "endmill" ["f"] "h2"
      (some [⟨"G1", none, none, none, none⟩]) [] ⟨[], none, false, "h1", []⟩).1
      = PreambleResult.proceed := by with_unfolding_all rfl
  have h2 : (opExecute_preamble "endmill" ["f"] "h2"
      (some [⟨"G1", none, none, none, none⟩]) [] ⟨[], none, false, "h1", []⟩).1
      ≠ PreambleResult.abortToolShape := by
    rw [h1]
    intro hc
    exact PreambleResult.noConfusion hc
  exact h.2.2.1 h2

end ZFace
